import Mathlib

/-!
# ILocker cryptographic storage engine — shallow embedding

This file embeds the security-relevant parts of the ILocker repository in
Lean 4 and proves (or refutes) the frozen claims about it.

Embedded source files:
* `src/services/SecurityService.ts` — key management, password verification,
  lockout, chunked stream encryption (`SecurityService` class).
* the streaming `FileService` variant (RNFS-based, `formatVersion = 2`) —
  store/retrieve/delete/cancel of encrypted files.
* `src/app/_layout.tsx` — the `loadFiles` sorting of the metadata list.

Modelling conventions:
* TypeScript `Buffer`s are `List Nat` (`Bytes`); TypeScript strings are
  `List Char` (`Str`).
* The external cryptography / encoding library (`react-native-quick-crypto`,
  `Buffer` base64/hex codecs) is not part of the repository; it is modelled
  by the interface `CryptoPrims`, and the library guarantees the code relies
  on (AES-CBC decrypt inverts encrypt, base64 decode inverts encode, the
  base64 alphabet contains no `|` character) are explicit hypotheses of the
  theorems.  `ToyCrypto` is a concrete instance of that interface used to
  show the hypotheses are satisfiable.
* Keychain / MMKV storage and the RNFS file system are modelled as fields of
  explicit state records; their operations are modelled as succeeding (the
  happy path of the `try`/`catch` blocks in the source).
* Randomness (`Crypto.randomBytes` in `generateSalt`) is modelled by passing
  the fresh salt as an explicit argument.
* Progress callbacks (`onProgress`) are modelled by returning the list of
  values the loop passes to the callback, as rationals (`ℚ`) in place of
  JavaScript numbers.
-/

/-- Byte sequences (TypeScript `Buffer`), one `Nat` per byte. -/
abbrev Bytes := List Nat

/-- TypeScript strings, modelled as lists of characters. -/
abbrev Str := List Char

/-- Interface of the external crypto / binary-encoding library used by
`SecurityService` (`react-native-quick-crypto` and the `Buffer` codecs).
The repository only calls it; it is not part of the repository's code. -/
structure CryptoPrims where
  /-- `Crypto.pbkdf2Sync(password, salt, iterations, keyLen, 'sha1')`. -/
  pbkdf2Sync : Str → Str → Nat → Nat → Bytes
  /-- `Crypto.createHmac('sha256', bufferKey).update(msg).digest()`. -/
  hmacSHA256 : Bytes → Str → Bytes
  /-- `Crypto.createHmac('sha256', stringKey).update(msg).digest()`. -/
  hmacSHA256s : Str → Str → Bytes
  /-- `Crypto.createCipheriv('aes-256-cbc', key, iv)` over a whole buffer
  (update + final), PKCS#7 padding included. -/
  aesCbcEnc : Bytes → Bytes → Bytes → Bytes
  /-- `Crypto.createDecipheriv('aes-256-cbc', key, iv)`; `none` models the
  exception thrown when the padding check fails. -/
  aesCbcDec : Bytes → Bytes → Bytes → Option Bytes
  /-- `buffer.toString('base64')`. -/
  toBase64 : Bytes → Str
  /-- `Buffer.from(string, 'base64')`. -/
  fromBase64 : Str → Bytes
  /-- `buffer.toString('hex')`. -/
  toHex : Bytes → Str
  /-- `Buffer.from(string, 'hex')`. -/
  fromHex : Str → Bytes

/-- Library guarantee: AES-256-CBC decryption inverts encryption under the
same key and IV. -/
def CipherRoundTrip (C : CryptoPrims) : Prop :=
  ∀ key iv data, C.aesCbcDec key iv (C.aesCbcEnc key iv data) = some data

/-- Library guarantee: base64 decoding inverts base64 encoding. -/
def B64RoundTrip (C : CryptoPrims) : Prop :=
  ∀ b, C.fromBase64 (C.toBase64 b) = b

/-- Library guarantee: the base64 alphabet does not contain the character
`|` (so base64 text never contains the chunk delimiter). -/
def B64NoBar (C : CryptoPrims) : Prop :=
  ∀ b, '|' ∉ C.toBase64 b

/-- File metadata record (`FileMetadata` in `SecurityService.ts`). -/
structure FileMetadata where
  id : Str
  originalName : Str
  encryptedPath : Str
  fileType : Str
  size : Nat
  encryptedThumbnail : Option Str
  timestamp : Nat
  version : Option Nat
deriving DecidableEq, Repr

/-- In-memory and stored state of the `SecurityService` singleton.
`kc…` fields are the Keychain entries (per service name), `st…` fields are
the MMKV `storage` entries. -/
structure SecurityState where
  /-- `this.masterKey`. -/
  masterKey : Option Bytes
  /-- `this.failedAttempts`. -/
  failedAttempts : Nat
  /-- whether `this.inactivityTimer` is armed. -/
  timerActive : Bool
  /-- Keychain service `com.ilocker.password` (stores the hex password hash). -/
  kcPassword : Option Str
  /-- Keychain service `com.ilocker.salt`. -/
  kcSalt : Option Str
  /-- Keychain service `com.ilocker.masterkey` (stores the hex master key). -/
  kcMasterKey : Option Str
  /-- `storage` key `password_salt`. -/
  stSalt : Option Str
  /-- `storage` key `password_set`. -/
  stPasswordSet : Bool
  /-- `storage` key `files` (the parsed `FileMetadata` collection). -/
  stFiles : List FileMetadata
deriving DecidableEq, Repr

/-- `MAX_FAILED_ATTEMPTS` in `SecurityService`. -/
def MAX_FAILED_ATTEMPTS : Nat := 5

/-- The fixed application salt `'ilocker-master-key-salt'`. -/
def masterKeySalt : Str := "ilocker-master-key-salt".data

/-- The fixed public IV salt `'ilocker-iv-salt'`. -/
def ivSalt : Str := "ilocker-iv-salt".data

/-- `hashPassword`: PBKDF2(password, salt, 5000 iterations, 32 bytes, SHA-1),
hex-encoded (`key.toString('hex')`). -/
def hashPassword (C : CryptoPrims) (password salt : Str) : Str :=
  C.toHex (C.pbkdf2Sync password salt 5000 32)

/-- `generateMasterKey(password)`: if a master key is already cached the
function returns without touching anything (`if (this.masterKey) return`);
otherwise it derives PBKDF2(password, 'ilocker-master-key-salt', 5000, 32),
caches it in memory and mirrors it hex-encoded in the Keychain service
`com.ilocker.masterkey`. -/
def generateMasterKey (C : CryptoPrims) (st : SecurityState) (password : Str) :
    SecurityState :=
  match st.masterKey with
  | some _ => st
  | none =>
    let mk := C.pbkdf2Sync password masterKeySalt 5000 32
    { st with masterKey := some mk, kcMasterKey := some (C.toHex mk) }

/-- `setPassword(password)`: stores the salted hash in the Keychain, the salt
in the Keychain and in storage, sets the `password_set` flag and calls
`generateMasterKey(password)`.  The fresh random salt from `generateSalt()`
is passed explicitly. -/
def setPassword (C : CryptoPrims) (st : SecurityState) (password salt : Str) :
    SecurityState :=
  let st1 := { st with
    kcPassword := some (hashPassword C password salt),
    kcSalt := some salt,
    stSalt := some salt,
    stPasswordSet := true }
  generateMasterKey C st1 password

/-- `wipeAllKeys()`: resets the Keychain services `com.ilocker.password` and
`com.ilocker.masterkey`, clears all of MMKV storage (`storage.clearAll()`),
drops the in-memory master key and zeroes the failed-attempt counter.
The Keychain salt service is not reset by the source. -/
def wipeAllKeys (st : SecurityState) : SecurityState :=
  { st with
    kcPassword := none,
    kcMasterKey := none,
    stSalt := none,
    stPasswordSet := false,
    stFiles := [],
    masterKey := none,
    failedAttempts := 0 }

/-- `verifyPassword(password)`: loads the stored hash and salt (caching the
salt into storage when it is found only in the Keychain), recomputes the
hash and compares.  On match: resets the failed-attempt counter, calls
`generateMasterKey`, starts the inactivity timer, returns `true`.  On
mismatch: increments the counter and, when it reaches
`MAX_FAILED_ATTEMPTS`, calls `wipeAllKeys` before returning `false`.
The salt lookup (storage first, Keychain fallback, caching the Keychain
value into storage when found there) is `verifySalt`. -/
def verifySalt (st : SecurityState) : Option Str × SecurityState :=
  match st.stSalt with
  | some s => (some s, st)
  | none =>
    match st.kcSalt with
    | some s => (some s, { st with stSalt := some s })
    | none => (none, st)

/-- `verifyPassword(password)`, continued: see the doc comment above.  The
salt lookup is factored into `verifySalt`. -/
def verifyPassword (C : CryptoPrims) (st : SecurityState) (password : Str) :
    Bool × SecurityState :=
  match st.kcPassword with
  | none => (false, st)
  | some storedHash =>
    match verifySalt st with
    | (none, st1) => (false, st1)
    | (some salt, st1) =>
      if hashPassword C password salt = storedHash then
        (true, { generateMasterKey C { st1 with failedAttempts := 0 } password with
          timerActive := true })
      else
        if MAX_FAILED_ATTEMPTS ≤ st1.failedAttempts + 1 then
          (false, wipeAllKeys { st1 with failedAttempts := st1.failedAttempts + 1 })
        else
          (false, { st1 with failedAttempts := st1.failedAttempts + 1 })

/-- `changePassword(old, new)`: verifies the old password; on success calls
`setPassword(new)` (with a fresh salt) and returns `true`. -/
def changePassword (C : CryptoPrims) (st : SecurityState)
    (oldPassword newPassword newSalt : Str) : Bool × SecurityState :=
  let vr := verifyPassword C st oldPassword
  if vr.1 then (true, setPassword C vr.2 newPassword newSalt)
  else (false, vr.2)

/-- `isPasswordSet()`: true iff the Keychain holds a password credential
(the happy path of the source; the `catch` fallback to the storage flag is
not reachable in the failure-free store model). -/
def isPasswordSet (st : SecurityState) : Bool :=
  st.kcPassword.isSome

/-- `restoreMasterKey()`: reads the hex master key mirror from the Keychain;
when present, decodes and caches it and starts the inactivity timer. -/
def restoreMasterKey (C : CryptoPrims) (st : SecurityState) :
    Bool × SecurityState :=
  match st.kcMasterKey with
  | some hex =>
    (true, { st with masterKey := some (C.fromHex hex), timerActive := true })
  | none => (false, st)

/-- `lock()`: drops the in-memory master key and clears the timer. -/
def lock (st : SecurityState) : SecurityState :=
  { st with masterKey := none, timerActive := false }

/-- `isAuthenticated()`. -/
def isAuthenticated (st : SecurityState) : Bool :=
  st.masterKey.isSome

/-- The error message thrown by `deriveFileKey` when no master key is
cached. -/
def notAuthenticatedMsg : String :=
  "Master key not available. Please authenticate first."

/-- `deriveFileKey(fileId)`: HMAC-SHA256 of the file id keyed by the master
key; throws when no master key is cached. -/
def deriveFileKey (C : CryptoPrims) (st : SecurityState) (fileId : Str) :
    Except String Bytes :=
  match st.masterKey with
  | none => .error notAuthenticatedMsg
  | some mk => .ok (C.hmacSHA256 mk fileId)

/-- `generateDeterministicIV(fileId)`: first 16 bytes of
HMAC-SHA256(fileId) keyed by the fixed string `'ilocker-iv-salt'`. -/
def generateDeterministicIV (C : CryptoPrims) (fileId : Str) : Bytes :=
  (C.hmacSHA256s ivSalt fileId).take 16

/-- `encryptBuffer(data, fileId)`: AES-256-CBC with the derived key and
deterministic IV. -/
def encryptBuffer (C : CryptoPrims) (st : SecurityState) (data : Bytes)
    (fileId : Str) : Except String Bytes :=
  match deriveFileKey C st fileId with
  | .error e => .error e
  | .ok key => .ok (C.aesCbcEnc key (generateDeterministicIV C fileId) data)

/-- The error message modelling the exception thrown by `decipher.final()`
on a failed padding check. -/
def decryptFailedMsg : String := "bad decrypt"

/-- `decryptBuffer(encryptedData, fileId)`: AES-256-CBC decryption with the
derived key and deterministic IV; the padding-check exception becomes an
error. -/
def decryptBuffer (C : CryptoPrims) (st : SecurityState) (data : Bytes)
    (fileId : Str) : Except String Bytes :=
  match deriveFileKey C st fileId with
  | .error e => .error e
  | .ok key =>
    match C.aesCbcDec key (generateDeterministicIV C fileId) data with
    | some p => .ok p
    | none => .error decryptFailedMsg

/-- `encryptData(data, fileId)`: `encryptBuffer` then base64.  (The source
utf8-encodes its string argument first; the model works on the byte
sequence directly.) -/
def encryptData (C : CryptoPrims) (st : SecurityState) (data : Bytes)
    (fileId : Str) : Except String Str :=
  (encryptBuffer C st data fileId).map C.toBase64

/-- `decryptData(encryptedBase64, fileId)`: base64-decode then
`decryptBuffer`. -/
def decryptData (C : CryptoPrims) (st : SecurityState) (enc : Str)
    (fileId : Str) : Except String Bytes :=
  decryptBuffer C st (C.fromBase64 enc) fileId

/-- `CHUNK_SIZE` in `encryptDataChunked` (500 KB). -/
def CHUNK_SIZE : Nat := 500000

/-- The chunk artifact id `` `${fileId}_chunk_${i}` ``. -/
def chunkId (fileId : Str) (i : Nat) : Str :=
  fileId ++ "_chunk_".data ++ Nat.toDigits 10 i

/-- The chunk loop's slicing: `totalChunks = ceil(len / n)` chunks, chunk `i`
being `data.subarray(i*n, min((i+1)*n, len))`. -/
def chunkList (n : Nat) (data : Bytes) : List Bytes :=
  (List.range ((data.length + n - 1) / n)).map (fun i => (data.drop (i * n)).take n)

/-- The chunk delimiter `'|||CHUNK|||'`. -/
def DELIM : Str := "|||CHUNK|||".data

/-- `Array.prototype.join('|||CHUNK|||')`. -/
def joinChunks : List Str → Str
  | [] => []
  | [c] => c
  | c :: rest => c ++ DELIM ++ joinChunks rest

/-- First occurrence of `sep` in a string: `some (before, after)` splits the
string around the first occurrence, `none` when there is none. -/
def splitFirst (sep : Str) : Str → Option (Str × Str)
  | [] => none
  | c :: cs =>
    if sep.isPrefixOf (c :: cs) then some ([], (c :: cs).drop sep.length)
    else
      match splitFirst sep cs with
      | none => none
      | some (pre, post) => some (c :: pre, post)

/-- `String.prototype.includes('|||CHUNK|||')`. -/
def hasDelim (s : Str) : Bool :=
  (splitFirst DELIM s).isSome

/-- `String.prototype.split('|||CHUNK|||')` (JavaScript semantics: split at
each successive first occurrence). -/
def splitChunks (s : Str) : List Str :=
  match h : splitFirst DELIM s with
  | none => [s]
  | some (pre, post) => pre :: splitChunks post
termination_by s.length
decreasing_by
  -- the remainder after the first occurrence of the 11-character delimiter
  -- is strictly shorter than the input
  induction s generalizing pre post with
  | nil => simp [splitFirst] at h
  | cons c cs ih =>
    simp only [splitFirst] at h
    split at h
    · simp only [Option.some.injEq, Prod.mk.injEq] at h
      obtain ⟨h1, h2⟩ := h
      subst h2
      have h11 : DELIM.length = 11 := rfl
      simp only [List.length_drop, h11, List.length_cons]
      omega
    · split at h
      · simp at h
      · rename_i pre1 post1 heq
        simp only [Option.some.injEq, Prod.mk.injEq] at h
        obtain ⟨h1, h2⟩ := h
        subst h2
        have := ih _ _ heq
        simp only [List.length_cons]
        omega

/-- The sequence of values a chunk loop of `n` iterations passes to
`onProgress`: `((i + 1) / n) * 100` after iteration `i`. -/
def progressSeq (n : Nat) : List ℚ :=
  (List.range n).map (fun i : Nat => (((i : ℚ) + 1) / (n : ℚ)) * 100)

/-- The body of the `encryptDataChunked` loop from index `i` on: encrypt
each chunk under its chunk id, base64-encode it. -/
def encChunksFrom (C : CryptoPrims) (st : SecurityState) (fileId : Str) :
    Nat → List Bytes → Except String (List Str)
  | _, [] => .ok []
  | i, c :: cs =>
    match encryptBuffer C st c (chunkId fileId i) with
    | .error e => .error e
    | .ok ct =>
      match encChunksFrom C st fileId (i + 1) cs with
      | .error e => .error e
      | .ok rest => .ok (C.toBase64 ct :: rest)

/-- The body of the `decryptDataChunked` loop from index `i` on: base64
decode each part and decrypt it under its chunk id. -/
def decChunksFrom (C : CryptoPrims) (st : SecurityState) (fileId : Str) :
    Nat → List Str → Except String (List Bytes)
  | _, [] => .ok []
  | i, p :: ps =>
    match decryptBuffer C st (C.fromBase64 p) (chunkId fileId i) with
    | .error e => .error e
    | .ok d =>
      match decChunksFrom C st fileId (i + 1) ps with
      | .error e => .error e
      | .ok rest => .ok (d :: rest)

/-- `encryptDataChunked(data, fileId, onProgress)`: splits the input into
`CHUNK_SIZE` chunks, encrypts chunk `i` under `` `${fileId}_chunk_${i}` ``,
stores each ciphertext base64-encoded and joins them with `'|||CHUNK|||'`.
Returns the output string together with the progress values reported. -/
def encryptDataChunked (C : CryptoPrims) (st : SecurityState) (data : Bytes)
    (fileId : Str) : Except String (Str × List ℚ) :=
  (encChunksFrom C st fileId 0 (chunkList CHUNK_SIZE data)).map
    (fun encrypted =>
      (joinChunks encrypted, progressSeq (chunkList CHUNK_SIZE data).length))

/-- `decryptDataChunked(encryptedData, fileId, onProgress)`: when the input
contains no `'|||CHUNK|||'` delimiter it is decrypted directly via
`decryptData(encryptedData, fileId)` (old format / small file) with no
progress reported; otherwise it is split at the delimiters and part `i` is
decrypted under `` `${fileId}_chunk_${i}` ``. -/
def decryptDataChunked (C : CryptoPrims) (st : SecurityState) (enc : Str)
    (fileId : Str) : Except String (Bytes × List ℚ) :=
  if hasDelim enc then
    (decChunksFrom C st fileId 0 (splitChunks enc)).map
      (fun decrypted =>
        (decrypted.flatten, progressSeq (splitChunks enc).length))
  else
    (decryptData C st enc fileId).map (fun d => (d, []))

/-- `storeFileMetadata(metadata)`: appends to the stored collection. -/
def storeFileMetadata (st : SecurityState) (m : FileMetadata) : SecurityState :=
  { st with stFiles := st.stFiles ++ [m] }

/-- `getAllFileMetadata()`: the stored collection, in stored order. -/
def getAllFileMetadata (st : SecurityState) : List FileMetadata :=
  st.stFiles

/-- `deleteFileMetadata(fileId)`: removes the records with the given id. -/
def deleteFileMetadata (st : SecurityState) (fileId : Str) : SecurityState :=
  { st with stFiles := st.stFiles.filter (fun f => f.id ≠ fileId) }

/-! ## Streaming `FileService` (RNFS variant, `formatVersion = 2`) -/

/-- `CHUNK_SIZE` of the streaming `FileService` (512 KB). -/
def CHUNK_SIZE_V2 : Nat := 512 * 1024

/-- `Buffer.alloc(4)` + `writeUInt32BE(n, 0)`: 4-byte big-endian length
header. -/
def encodeBE32 (n : Nat) : Bytes :=
  [n / 2 ^ 24 % 256, n / 2 ^ 16 % 256, n / 2 ^ 8 % 256, n % 256]

/-- `buffer.readUInt32BE(0)`. -/
def decodeBE32 (b : Bytes) : Nat :=
  b.getD 0 0 * 2 ^ 24 + b.getD 1 0 * 2 ^ 16 + b.getD 2 0 * 2 ^ 8 + b.getD 3 0

/-- Status of a `FileOperation`. -/
inductive OpStatus where
  | pending
  | processing
  | completed
  | failed
deriving DecidableEq, Repr

/-- The observable outcome fields of a `FileOperation` record. -/
structure OpModel where
  status : OpStatus
  error : Option String
deriving DecidableEq, Repr

/-- Result of the `secureFile` chunk loop: the packets appended to the
`.enc` file before the loop completed, was cancelled, or threw. -/
inductive StoreResult where
  | completed (packets : List Bytes)
  | cancelled (packets : List Bytes)
  | errored (packets : List Bytes) (msg : String)
deriving DecidableEq, Repr

/-- The chunk loop of the streaming `secureFile`: before each chunk the
loop consults `isCancelled(operationId)` (`cancel i` is the flag's value at
the check preceding chunk `i`) and throws `'Cancelled'` when set; otherwise
it encrypts the chunk under `` `${fileId}_chunk_${i}` `` and appends
`[4-byte BE ciphertext length][ciphertext]` to the output file. -/
def secureFileLoop (C : CryptoPrims) (st : SecurityState) (fileId : Str)
    (cancel : Nat → Bool) : Nat → List Bytes → StoreResult
  | _, [] => .completed []
  | i, c :: cs =>
    if cancel i then .cancelled []
    else
      match encryptBuffer C st c (chunkId fileId i) with
      | .error e => .errored [] e
      | .ok ct =>
        let packet : Bytes := encodeBE32 ct.length ++ ct
        match secureFileLoop C st fileId cancel (i + 1) cs with
        | .completed ps => .completed (packet :: ps)
        | .cancelled ps => .cancelled (packet :: ps)
        | .errored ps e => .errored (packet :: ps) e

/-- The outcome of the streaming `secureFile` chunk loop as a
`FileOperation` result plus the bytes written to the `.enc` file: on
normal completion the operation is marked `completed`; a `'Cancelled'`
throw or an encryption error is caught and the operation is marked
`failed` with the error message. -/
def storeOutcome : StoreResult → OpModel × Bytes
  | .completed ps => ({ status := .completed, error := none }, ps.flatten)
  | .cancelled ps => ({ status := .failed, error := some "Cancelled" }, ps.flatten)
  | .errored ps e => ({ status := .failed, error := some e }, ps.flatten)

/-- The final `FileOperation` outcome and `.enc` file content of the
streaming `secureFile` on `data`. -/
def secureFileV2 (C : CryptoPrims) (st : SecurityState) (fileId : Str)
    (cancel : Nat → Bool) (data : Bytes) : OpModel × Bytes :=
  storeOutcome (secureFileLoop C st fileId cancel 0 (chunkList CHUNK_SIZE_V2 data))

/-- The framed record for plaintext chunk `p.2` at index `p.1`: the 4-byte
big-endian ciphertext length followed by the ciphertext of the chunk under
the id `` `${fileId}_chunk_${p.1}` `` (for master key `mk`). -/
def v2Packet (C : CryptoPrims) (mk : Bytes) (fileId : Str)
    (p : Nat × Bytes) : Bytes :=
  encodeBE32 (C.aesCbcEnc (C.hmacSHA256 mk (chunkId fileId p.1))
    (generateDeterministicIV C (chunkId fileId p.1)) p.2).length ++
  C.aesCbcEnc (C.hmacSHA256 mk (chunkId fileId p.1))
    (generateDeterministicIV C (chunkId fileId p.1)) p.2

/-- The on-disk `formatVersion = 2` layout as the specification words it:
one record per plaintext chunk in index order, each record a 4-byte
big-endian ciphertext length followed by exactly that ciphertext, chunk `i`
keyed by `` `${fileId}_chunk_${i}` ``.  (Stated against a given master key;
used to compare the store loop's output with the spec.) -/
def specFramingV2 (C : CryptoPrims) (mk : Bytes) (fileId : Str)
    (chunks : List Bytes) : Bytes :=
  (chunks.enum.map (v2Packet C mk fileId)).flatten

/-- The version-2 loop of `getSecureFileUri`: while bytes remain, read a
4-byte big-endian length header, read that many ciphertext bytes, decrypt
them under `` `${fileId}_chunk_${i}` ``, append the plaintext, advance. -/
def decryptV2Loop (C : CryptoPrims) (st : SecurityState) (fileId : Str) :
    Nat → Bytes → Except String (List Bytes)
  | _, [] => .ok []
  | i, b :: bs =>
    match decryptBuffer C st (((b :: bs).drop 4).take (decodeBE32 ((b :: bs).take 4)))
        (chunkId fileId i) with
    | .error e => .error e
    | .ok d =>
      match decryptV2Loop C st fileId (i + 1)
          (((b :: bs).drop 4).drop (decodeBE32 ((b :: bs).take 4))) with
      | .error e => .error e
      | .ok ds => .ok (d :: ds)
termination_by _ bytes => bytes.length
decreasing_by
  simp only [List.length_drop, List.length_cons]
  omega

/-- The version-2 path of `getSecureFileUri(fileId)`: parses the framed
ciphertext file and concatenates the decrypted chunks.  The source loop
never consults `isCancelled`, so the cancellation state — passed here
explicitly as `cancelRequested` to make this observable — does not occur in
the body. -/
def getSecureFileUriV2 (C : CryptoPrims) (st : SecurityState) (fileId : Str)
    (cancelRequested : Nat → Bool) (encFile : Bytes) : Except String Bytes :=
  (decryptV2Loop C st fileId 0 encFile).map List.flatten

/-- State of the vault: the `SecurityService` state plus the set of paths
existing on the RNFS file system. -/
structure VaultState where
  sec : SecurityState
  disk : List Str
deriving DecidableEq, Repr

/-- The thumbnail path `` `${THUMBNAIL_DIR}${fileId}.thumb` ``. -/
def thumbPath (thumbnailDir : Str) (fileId : Str) : Str :=
  thumbnailDir ++ fileId ++ ".thumb".data

/-- `deleteSecureFile(fileId)` of the streaming `FileService`: looks the id
up in the metadata collection (`false` when absent); otherwise unlinks the
ciphertext file and the thumbnail when they exist (absence is skipped, not
an error), removes the metadata record and returns `true`. -/
def deleteSecureFile (thumbnailDir : Str) (vs : VaultState) (fileId : Str) :
    Bool × VaultState :=
  match vs.sec.stFiles.find? (fun f => f.id == fileId) with
  | none => (false, vs)
  | some m =>
    let disk1 := vs.disk.filter (fun p => p ≠ m.encryptedPath)
    let disk2 := disk1.filter (fun p => p ≠ thumbPath thumbnailDir fileId)
    (true, { sec := deleteFileMetadata vs.sec fileId, disk := disk2 })

/-- A metadata-mutating operation: `storeFileMetadata` or
`deleteFileMetadata`. -/
inductive MetaOp where
  | store (m : FileMetadata)
  | del (fileId : Str)

/-- Apply a sequence of metadata operations to the service state. -/
def applyMetaOps (st : SecurityState) : List MetaOp → SecurityState
  | [] => st
  | (MetaOp.store m) :: rest => applyMetaOps (storeFileMetadata st m) rest
  | (MetaOp.del fid) :: rest => applyMetaOps (deleteFileMetadata st fid) rest

/-- The same sequence of operations as a pure fold over the record list:
a store appends, a delete filters. -/
def applyMetaOpsList (l : List FileMetadata) : List MetaOp → List FileMetadata
  | [] => l
  | (MetaOp.store m) :: rest => applyMetaOpsList (l ++ [m]) rest
  | (MetaOp.del fid) :: rest =>
    applyMetaOpsList (l.filter (fun f => f.id ≠ fid)) rest

/-- `loadFiles` in `_layout.tsx`: reads `getAllFileMetadata()` and sorts it
with the comparator `(a, b) => b.timestamp - a.timestamp` (newest first).
The JavaScript sort is modelled by insertion sort with the corresponding
relation. -/
def loadFiles (st : SecurityState) : List FileMetadata :=
  (getAllFileMetadata st).insertionSort (fun a b => b.timestamp ≤ a.timestamp)

/-! ## A concrete instance of the external-library interface

Used to show that the library-contract hypotheses of the theorems below are
satisfiable and to instantiate counterexamples; any instance satisfying
`CipherRoundTrip`, `B64RoundTrip` and `B64NoBar` (as the real AES-256-CBC +
base64 library does) exhibits the same behaviour of the repository code. -/

/-- Unary comma-terminated encoding of a byte list.  Its output alphabet is
exactly the two characters `a` and comma, so it never contains `|`. -/
def toyB64 : Bytes → Str
  | [] => []
  | n :: ns => List.replicate n 'a' ++ ',' :: toyB64 ns

/-- Inverse of `toyB64`: count the run of `a` before each comma. -/
def toyB64InvAux : Nat → Str → Bytes
  | _, [] => []
  | acc, c :: rest =>
    if c = ',' then acc :: toyB64InvAux 0 rest
    else toyB64InvAux (acc + 1) rest

/-- Inverse of `toyB64`. -/
def toyB64Inv (s : Str) : Bytes := toyB64InvAux 0 s

/-- The key/IV tag a toy ciphertext starts with. -/
def toyTag (key iv : Bytes) : Bytes := (key.length :: key) ++ (iv.length :: iv)

/-- Concrete `CryptoPrims` instance: the cipher tags the plaintext with its
key and IV (decryption strips the tag, failing on a key/IV mismatch — the
toy analogue of a CBC padding failure), and base64/hex are the unary
encoding. -/
def toyCrypto : CryptoPrims where
  pbkdf2Sync := fun pw salt _ _ =>
    pw.map (fun c => c.toNat % 8) ++ 0 :: salt.map (fun c => c.toNat % 8)
  hmacSHA256 := fun key msg => key ++ 1 :: msg.map (fun c => c.toNat % 8)
  hmacSHA256s := fun _ msg => msg.map (fun c => c.toNat % 8)
  aesCbcEnc := fun key iv data => toyTag key iv ++ data
  aesCbcDec := fun key iv data =>
    if (toyTag key iv).isPrefixOf data then
      some (data.drop (toyTag key iv).length)
    else none
  toBase64 := toyB64
  fromBase64 := toyB64Inv
  toHex := toyB64
  fromHex := toyB64Inv

/-- An authenticated state with a cached master key and nothing stored. -/
def exAuthSt : SecurityState where
  masterKey := some [7]
  failedAttempts := 0
  timerActive := true
  kcPassword := none
  kcSalt := none
  kcMasterKey := none
  stSalt := none
  stPasswordSet := false
  stFiles := []

/-- Example password. -/
def exPw : Str := "p1".data

/-- Example per-install salt. -/
def exSalt : Str := "s".data

/-- A freshly authenticated state with the credential record for `exPw`
stored (as left behind by `setPassword(exPw)` plus a successful
verification). -/
def exCredSt : SecurityState where
  masterKey := some (toyCrypto.pbkdf2Sync exPw masterKeySalt 5000 32)
  failedAttempts := 0
  timerActive := true
  kcPassword := some (hashPassword toyCrypto exPw exSalt)
  kcSalt := some exSalt
  kcMasterKey := some (toyCrypto.toHex (toyCrypto.pbkdf2Sync exPw masterKeySalt 5000 32))
  stSalt := some exSalt
  stPasswordSet := true
  stFiles := []

/-- Example metadata record. -/
def exRec1 : FileMetadata where
  id := "f1".data
  originalName := "a.txt".data
  encryptedPath := "/secure/f1.enc".data
  fileType := "text/plain".data
  size := 2
  encryptedThumbnail := none
  timestamp := 1
  version := some 2

/-- A second example record, created later than `exRec1`. -/
def exRec2 : FileMetadata :=
  { exRec1 with id := "f2".data, encryptedPath := "/secure/f2.enc".data, timestamp := 2 }

/-- Example thumbnail directory. -/
def exThumbDir : Str := "/thumbnails/".data

/-- A vault holding `exRec1`, its ciphertext file and its thumbnail. -/
def exVault : VaultState where
  sec := { exAuthSt with stFiles := [exRec1] }
  disk := ["/secure/f1.enc".data, thumbPath exThumbDir "f1".data]

/-- Toy ciphertext of `[5]` under the chunk-0 id of file `f` (as produced
by the chunked encryptor for the first chunk). -/
def exCtA : Bytes :=
  toyCrypto.aesCbcEnc (toyCrypto.hmacSHA256 [7] (chunkId "f".data 0))
    (generateDeterministicIV toyCrypto (chunkId "f".data 0)) [5]

/-- Toy ciphertext of `[6]` under the chunk-1 id of file `f`. -/
def exCtB : Bytes :=
  toyCrypto.aesCbcEnc (toyCrypto.hmacSHA256 [7] (chunkId "f".data 1))
    (generateDeterministicIV toyCrypto (chunkId "f".data 1)) [6]

/-- A two-part delimited encrypted string for file `f`: base64 parts around
one `'|||CHUNK|||'` delimiter. -/
def exEncC8 : Str := toyB64 exCtA ++ DELIM ++ toyB64 exCtB

/-- Toy ciphertext of `[5]` under the bare id `f` (as produced by the
non-chunked `encryptData`). -/
def exCtBare : Bytes :=
  toyCrypto.aesCbcEnc (toyCrypto.hmacSHA256 [7] "f".data)
    (generateDeterministicIV toyCrypto "f".data) [5]

/-! ## Library-contract lemmas for the concrete instance -/

/-- The toy cipher satisfies the AES-CBC round-trip contract. -/
theorem toyCrypto_cipherRoundTrip : CipherRoundTrip toyCrypto := by
  intro key iv data
  have hp : (toyTag key iv).isPrefixOf (toyTag key iv ++ data) = true :=
    List.isPrefixOf_iff_prefix.mpr (List.prefix_append _ _)
  simp only [toyCrypto, hp, if_true, List.drop_left]

/-- Reading back a unary run: counting `a` up to the comma recovers the
encoded byte, shifted by the accumulator. -/
theorem toyB64InvAux_replicate (n : Nat) (rest : Str) :
    ∀ acc, toyB64InvAux acc (List.replicate n 'a' ++ ',' :: rest) =
      (acc + n) :: toyB64InvAux 0 rest := by
  induction n with
  | zero => intro acc; simp [toyB64InvAux]
  | succ k ih =>
    intro acc
    simp only [List.replicate_succ, List.cons_append, toyB64InvAux]
    rw [if_neg (by decide)]
    simp only [List.append_eq]
    rw [ih (acc + 1)]
    congr 1
    omega

/-- The toy base64 satisfies the round-trip contract. -/
theorem toyCrypto_b64RoundTrip : B64RoundTrip toyCrypto := by
  intro b
  show toyB64Inv (toyB64 b) = b
  induction b with
  | nil => rfl
  | cons n ns ih =>
    show toyB64InvAux 0 (List.replicate n 'a' ++ ',' :: toyB64 ns) = n :: ns
    rw [toyB64InvAux_replicate n (toyB64 ns) 0]
    simpa [toyB64Inv] using ih

/-- The toy base64 output never contains `|`. -/
theorem toyCrypto_b64NoBar : B64NoBar toyCrypto := by
  intro b
  show '|' ∉ toyB64 b
  induction b with
  | nil => simp [toyB64]
  | cons n ns ih =>
    simp only [toyB64, List.mem_append, List.mem_cons, List.mem_replicate]
    rintro (⟨-, h⟩ | h | h)
    · exact absurd h (by decide)
    · exact absurd h (by decide)
    · exact ih h

/-! ## Delimiter splitting lemmas -/

/-- A string without `|` contains no occurrence of the delimiter. -/
theorem splitFirst_eq_none (s : Str) (h : '|' ∉ s) :
    splitFirst DELIM s = none := by
  induction s with
  | nil => rfl
  | cons c cs ih =>
    simp only [List.mem_cons, not_or] at h
    obtain ⟨hc, hcs⟩ := h
    have hne : ¬ DELIM.isPrefixOf (c :: cs) = true := by
      intro hpre
      rcases List.isPrefixOf_iff_prefix.mp hpre with ⟨t, ht⟩
      have hD : DELIM = '|' :: "||CHUNK|||".data := rfl
      rw [hD, List.cons_append] at ht
      injection ht with h1 _
      exact hc h1
    simp only [splitFirst]
    rw [if_neg hne, ih hcs]

/-- The first delimiter occurrence in `p ++ DELIM ++ rest` with `|`-free `p`
is exactly at the junction. -/
theorem splitFirst_append (p rest : Str) (h : '|' ∉ p) :
    splitFirst DELIM (p ++ DELIM ++ rest) = some (p, rest) := by
  induction p with
  | nil =>
    have hp : DELIM.isPrefixOf (DELIM ++ rest) = true :=
      List.isPrefixOf_iff_prefix.mpr (List.prefix_append _ _)
    have hD : DELIM = '|' :: "||CHUNK|||".data := rfl
    rw [List.nil_append]
    conv_lhs => rw [hD, List.cons_append]
    rw [splitFirst]
    rw [← List.cons_append, ← hD, if_pos hp, List.drop_left]
  | cons c p ih =>
    simp only [List.mem_cons, not_or] at h
    obtain ⟨hc, hp⟩ := h
    have hne : ¬ DELIM.isPrefixOf (c :: (p ++ DELIM ++ rest)) = true := by
      intro hpre
      rcases List.isPrefixOf_iff_prefix.mp hpre with ⟨t, ht⟩
      have hD : DELIM = '|' :: "||CHUNK|||".data := rfl
      rw [hD, List.cons_append] at ht
      injection ht with h1 _
      exact hc h1
    simp only [List.cons_append, splitFirst, List.append_eq]
    rw [if_neg hne, ih hp]

/-- `splitChunks` on a string without a delimiter occurrence. -/
theorem splitChunks_of_none (s : Str) (h0 : splitFirst DELIM s = none) :
    splitChunks s = [s] := by
  unfold splitChunks
  split
  · rfl
  · rename_i pre post heq
    rw [h0] at heq
    cases heq

/-- `splitChunks` steps over the first delimiter occurrence. -/
theorem splitChunks_of_some (s pre post : Str)
    (h0 : splitFirst DELIM s = some (pre, post)) :
    splitChunks s = pre :: splitChunks post := by
  conv_lhs => unfold splitChunks
  split
  · rename_i heq
    rw [h0] at heq
    cases heq
  · rename_i pre1 post1 heq
    have h2 := h0.symm.trans heq
    injection h2 with h3
    injection h3 with h4 h5
    rw [h4, h5]

/-- Splitting inverts joining for a nonempty list of `|`-free parts. -/
theorem splitChunks_join (parts : List Str) (hne : parts ≠ [])
    (hnb : ∀ p ∈ parts, '|' ∉ p) : splitChunks (joinChunks parts) = parts := by
  induction parts with
  | nil => cases hne rfl
  | cons p ps ih =>
    cases ps with
    | nil =>
      have h0 : splitFirst DELIM p = none :=
        splitFirst_eq_none p (hnb p (by simp))
      simpa [joinChunks] using splitChunks_of_none p h0
    | cons q qs =>
      have hjoin : joinChunks (p :: q :: qs) = p ++ DELIM ++ joinChunks (q :: qs) := rfl
      have h0 : splitFirst DELIM (p ++ DELIM ++ joinChunks (q :: qs)) =
          some (p, joinChunks (q :: qs)) :=
        splitFirst_append _ _ (hnb p (by simp))
      rw [hjoin, splitChunks_of_some _ _ _ h0,
        ih (by simp) (fun r hr => hnb r (by simp [hr]))]

/-- A join of at least two `|`-free parts contains the delimiter. -/
theorem hasDelim_join (p q : Str) (qs : List Str) (hp : '|' ∉ p) :
    hasDelim (joinChunks (p :: q :: qs)) = true := by
  have h0 := splitFirst_append p (joinChunks (q :: qs)) hp
  have hjoin : joinChunks (p :: q :: qs) = p ++ DELIM ++ joinChunks (q :: qs) := rfl
  show (splitFirst DELIM (joinChunks (p :: q :: qs))).isSome = true
  rw [hjoin, h0]
  rfl

/-- A `|`-free string has no delimiter. -/
theorem hasDelim_eq_false (s : Str) (h : '|' ∉ s) : hasDelim s = false := by
  simp [hasDelim, splitFirst_eq_none s h]

/-! ## Chunk-slicing lemmas -/

/-- Slicing the empty buffer yields no chunks. -/
theorem chunkList_nil (n : Nat) : chunkList n [] = [] := by
  have h : (n - 1) / n = 0 := by
    cases n with
    | zero => rfl
    | succ m => exact Nat.div_eq_of_lt (by omega)
  simp [chunkList, h]

/-- The number of chunks is the rounded-up length quotient. -/
theorem chunkList_length (n : Nat) (data : Bytes) :
    (chunkList n data).length = (data.length + n - 1) / n := by
  simp [chunkList]

/-- Slicing a nonempty buffer peels off the first `n` bytes. -/
theorem chunkList_cons (n : Nat) (hn : 0 < n) (data : Bytes) (hd : data ≠ []) :
    chunkList n data = data.take n :: chunkList n (data.drop n) := by
  have hlen : 0 < data.length := List.length_pos.mpr hd
  have hLHS : (data.length + n - 1) / n = (data.length - 1) / n + 1 := by
    have h1 : data.length + n - 1 = (data.length - 1) + n := by omega
    rw [h1, Nat.add_div_right _ hn]
  have hRHS : ((data.length - n) + n - 1) / n = (data.length - 1) / n := by
    rcases le_or_lt n data.length with hge | hlt
    · congr 1
      omega
    · have h2 : data.length - n = 0 := by omega
      rw [h2, Nat.div_eq_of_lt (show 0 + n - 1 < n by omega),
        Nat.div_eq_of_lt (show data.length - 1 < n by omega)]
  unfold chunkList
  rw [List.length_drop, hLHS, hRHS, List.range_succ_eq_map]
  simp only [List.map_cons, List.map_map, Nat.zero_mul, List.drop_zero]
  congr 1
  apply List.map_congr_left
  intro i hi
  simp only [Function.comp_apply, List.drop_drop]
  congr 2
  simp [Nat.succ_mul, Nat.add_comm]

/-- Concatenating the chunks restores the buffer (stated with an explicit
length bound for the induction). -/
theorem chunkList_flatten_aux (n : Nat) (hn : 0 < n) :
    ∀ (k : Nat) (data : Bytes), data.length ≤ k →
      (chunkList n data).flatten = data := by
  intro k
  induction k with
  | zero =>
    intro data h
    have : data = [] := List.eq_nil_of_length_eq_zero (by omega)
    simp [this, chunkList_nil]
  | succ m ih =>
    intro data h
    rcases eq_or_ne data [] with rfl | hd
    · simp [chunkList_nil]
    · have hpos : 0 < data.length := List.length_pos.mpr hd
      rw [chunkList_cons n hn data hd, List.flatten_cons,
        ih (data.drop n) (by simp only [List.length_drop]; omega)]
      exact List.take_append_drop n data

/-- Concatenating the chunks restores the buffer. -/
theorem chunkList_flatten (n : Nat) (hn : 0 < n) (data : Bytes) :
    (chunkList n data).flatten = data :=
  chunkList_flatten_aux n hn data.length data le_rfl

/-! ## Chunk encryption round trip -/

/-- With a cached master key, the encryption loop succeeds, and the
decryption loop applied to its output (same starting index, hence same
chunk ids) recovers the chunks.  The outputs are base64, hence `|`-free. -/
theorem encChunksFrom_decChunksFrom (C : CryptoPrims) (st : SecurityState)
    (fid : Str) (mk : Bytes) (hC : CipherRoundTrip C) (hB : B64RoundTrip C)
    (hN : B64NoBar C) (hmk : st.masterKey = some mk) :
    ∀ (chunks : List Bytes) (i : Nat),
      ∃ es, encChunksFrom C st fid i chunks = .ok es ∧
        decChunksFrom C st fid i es = .ok chunks ∧
        es.length = chunks.length ∧ ∀ p ∈ es, '|' ∉ p := by
  intro chunks
  induction chunks with
  | nil => exact fun i => ⟨[], rfl, rfl, rfl, by simp⟩
  | cons c cs ih =>
    intro i
    obtain ⟨es, henc, hdec, hlen, hnb⟩ := ih (i + 1)
    have hkey : deriveFileKey C st (chunkId fid i) = .ok (C.hmacSHA256 mk (chunkId fid i)) := by
      simp [deriveFileKey, hmk]
    refine ⟨C.toBase64 (C.aesCbcEnc (C.hmacSHA256 mk (chunkId fid i))
      (generateDeterministicIV C (chunkId fid i)) c) :: es, ?_, ?_, by simp [hlen], ?_⟩
    · simp only [encChunksFrom, encryptBuffer, hkey, henc]
    · simp only [decChunksFrom, decryptBuffer, hkey, hB _, hC _ _ _, hdec]
    · intro p hp
      rcases List.mem_cons.mp hp with rfl | hp
      · exact hN _
      · exact hnb p hp

/-- C1 (amended): for every plaintext byte sequence `P` that spans at least
two chunks (`CHUNK_SIZE < |P|`) and every artifact id, with a cached master
key and a cipher/base64 library satisfying its contracts,
`encryptDataChunked` succeeds and `decryptDataChunked` of its output under
the same id returns exactly `P`.  (For `|P| ≤ CHUNK_SIZE` the claim fails:
see the counterexample — the single-chunk output contains no delimiter, so
decryption takes the legacy path with the un-suffixed file id.) -/
theorem C1_roundtrip_amended (C : CryptoPrims) (st : SecurityState)
    (fid : Str) (mk : Bytes) (data : Bytes) (hC : CipherRoundTrip C)
    (hB : B64RoundTrip C) (hN : B64NoBar C) (hmk : st.masterKey = some mk)
    (hbig : CHUNK_SIZE < data.length) :
    ∃ r, encryptDataChunked C st data fid = .ok r ∧
      decryptDataChunked C st r.1 fid = .ok (data, r.2) := by
  obtain ⟨es, henc, hdec, hlen, hnb⟩ :=
    encChunksFrom_decChunksFrom C st fid mk hC hB hN hmk (chunkList CHUNK_SIZE data) 0
  have hnchunks : 2 ≤ (chunkList CHUNK_SIZE data).length := by
    rw [chunkList_length]
    have h5 : CHUNK_SIZE = 500000 := rfl
    rw [h5]
    rw [h5] at hbig
    omega
  have hes2 : 2 ≤ es.length := by omega
  obtain ⟨p, q, qs, hpq⟩ : ∃ p q qs, es = p :: q :: qs := by
    match es, hes2 with
    | p :: q :: qs, _ => exact ⟨p, q, qs, rfl⟩
  have hdelim : hasDelim (joinChunks es) = true := by
    rw [hpq]
    exact hasDelim_join p q qs (hnb p (by rw [hpq]; simp))
  have hsplit : splitChunks (joinChunks es) = es :=
    splitChunks_join es (by rw [hpq]; simp) hnb
  refine ⟨(joinChunks es, progressSeq (chunkList CHUNK_SIZE data).length), ?_, ?_⟩
  · unfold encryptDataChunked
    rw [henc]
    rfl
  · unfold decryptDataChunked
    rw [hdelim, if_pos rfl, hsplit, hdec, hlen]
    show Except.ok ((chunkList CHUNK_SIZE data).flatten,
      progressSeq (chunkList CHUNK_SIZE data).length) = _
    rw [chunkList_flatten CHUNK_SIZE (by norm_num [CHUNK_SIZE]) data]

/-- Witness for the C1 theorem: a concrete 500001-byte plaintext under the
concrete library instance; the round trip returns exactly that plaintext. -/
theorem C1_roundtrip_amended_witness :
    CipherRoundTrip toyCrypto ∧ B64RoundTrip toyCrypto ∧ B64NoBar toyCrypto ∧
    exAuthSt.masterKey = some [7] ∧
    CHUNK_SIZE < (List.replicate 500001 3).length ∧
    (encryptDataChunked toyCrypto exAuthSt (List.replicate 500001 3) "f".data).bind
        (fun r => decryptDataChunked toyCrypto exAuthSt r.1 "f".data) =
      (encryptDataChunked toyCrypto exAuthSt (List.replicate 500001 3) "f".data).map
        (fun r => (List.replicate 500001 3, r.2)) := by
  refine ⟨toyCrypto_cipherRoundTrip, toyCrypto_b64RoundTrip, toyCrypto_b64NoBar, rfl,
    by rw [List.length_replicate]; norm_num [CHUNK_SIZE], ?_⟩
  obtain ⟨r, henc, hdec⟩ := C1_roundtrip_amended toyCrypto exAuthSt "f".data [7]
    (List.replicate 500001 3) toyCrypto_cipherRoundTrip toyCrypto_b64RoundTrip
    toyCrypto_b64NoBar rfl (by rw [List.length_replicate]; norm_num [CHUNK_SIZE])
  rw [henc]
  exact hdec

set_option maxRecDepth 10000 in
/-- Counterexample to C1 as stated: for the two-byte plaintext `[5, 6]`
(one chunk) the encrypt-then-decrypt composition errors instead of
returning the plaintext — the single-chunk output contains no
`'|||CHUNK|||'` delimiter, so `decryptDataChunked` decrypts it with the key
and IV of the bare file id while it was encrypted under
`` `${fileId}_chunk_0` ``.  The concrete library instance satisfies all the
library contracts (`toyCrypto_cipherRoundTrip`, `toyCrypto_b64RoundTrip`,
`toyCrypto_b64NoBar`), and the state has a cached master key. -/
theorem C1_counterexample :
    isAuthenticated exAuthSt = true ∧
    (encryptDataChunked toyCrypto exAuthSt [5, 6] "f".data).bind
      (fun r => decryptDataChunked toyCrypto exAuthSt r.1 "f".data) =
      .error decryptFailedMsg ∧
    (encryptDataChunked toyCrypto exAuthSt [] "f".data).bind
      (fun r => decryptDataChunked toyCrypto exAuthSt r.1 "f".data) =
      .error decryptFailedMsg :=
  ⟨rfl, rfl, rfl⟩

/-! ## `verifyPassword` characterizations -/

/-- A matching password: counter reset, master key generated (subject to the
cache-skip in `generateMasterKey`), timer started, `true` returned. -/
theorem verifySalt_of_stSalt (st : SecurityState) (s : Str)
    (h : st.stSalt = some s) : verifySalt st = (some s, st) := by
  unfold verifySalt
  rw [h]

/-- A matching password: counter reset, master key generated (subject to the
cache-skip in `generateMasterKey`), timer started, `true` returned. -/
theorem verifyPassword_correct (C : CryptoPrims) (st : SecurityState)
    (pw storedHash psalt : Str) (hkc : st.kcPassword = some storedHash)
    (hsalt : st.stSalt = some psalt)
    (hhash : hashPassword C pw psalt = storedHash) :
    verifyPassword C st pw =
      (true, { generateMasterKey C { st with failedAttempts := 0 } pw with
        timerActive := true }) := by
  unfold verifyPassword
  rw [hkc, verifySalt_of_stSalt st psalt hsalt]
  simp [hhash]
  simp [hkc]

/-- A non-matching password: the counter is incremented and, at the
threshold, everything is wiped before `false` is returned. -/
theorem verifyPassword_wrong (C : CryptoPrims) (st : SecurityState)
    (pw storedHash psalt : Str) (hkc : st.kcPassword = some storedHash)
    (hsalt : st.stSalt = some psalt)
    (hne : hashPassword C pw psalt ≠ storedHash) :
    verifyPassword C st pw =
      if MAX_FAILED_ATTEMPTS ≤ st.failedAttempts + 1 then
        (false, wipeAllKeys { st with failedAttempts := st.failedAttempts + 1 })
      else (false, { st with failedAttempts := st.failedAttempts + 1 }) := by
  unfold verifyPassword
  rw [hkc, verifySalt_of_stSalt st psalt hsalt]
  simp [hne]
  simp [hkc]

/-- C2 (amended): `setPassword` derives and caches the master key from its
password only when no master key is currently cached; when one is cached,
`generateMasterKey` returns early and the cached key is left unchanged.  In
particular, after a successful `changePassword(old, new)` from a locked
state the cached master key is the one derived from the OLD password, not
the new one. -/
theorem C2_setPassword_amended (C : CryptoPrims) (st : SecurityState)
    (password salt : Str) :
    (st.masterKey = none →
      (setPassword C st password salt).masterKey =
        some (C.pbkdf2Sync password masterKeySalt 5000 32)) ∧
    (∀ k, st.masterKey = some k →
      (setPassword C st password salt).masterKey = some k) ∧
    (∀ oldPw newPw newSalt storedHash psalt,
      st.masterKey = none → st.kcPassword = some storedHash →
      st.stSalt = some psalt → hashPassword C oldPw psalt = storedHash →
      (changePassword C st oldPw newPw newSalt).1 = true ∧
      (changePassword C st oldPw newPw newSalt).2.masterKey =
        some (C.pbkdf2Sync oldPw masterKeySalt 5000 32)) := by
  refine ⟨?_, ?_, ?_⟩
  · intro hmk
    simp [setPassword, generateMasterKey, hmk]
  · intro k hmk
    simp [setPassword, generateMasterKey, hmk]
  · intro oldPw newPw newSalt storedHash psalt hmk hkc hsalt hhash
    rw [changePassword, verifyPassword_correct C st oldPw storedHash psalt hkc hsalt hhash]
    simp [setPassword, generateMasterKey, hmk]

/-- Witness for the C2 theorem: concrete locked and unlocked states. -/
theorem C2_setPassword_amended_witness :
    ((lock exCredSt).masterKey = none ∧
      (setPassword toyCrypto (lock exCredSt) "p2".data "t".data).masterKey =
        some (toyCrypto.pbkdf2Sync "p2".data masterKeySalt 5000 32)) ∧
    (exCredSt.masterKey = some (toyCrypto.pbkdf2Sync exPw masterKeySalt 5000 32) ∧
      (setPassword toyCrypto exCredSt "p2".data "t".data).masterKey =
        some (toyCrypto.pbkdf2Sync exPw masterKeySalt 5000 32)) :=
  ⟨⟨rfl, (C2_setPassword_amended toyCrypto (lock exCredSt) "p2".data "t".data).1 rfl⟩,
    ⟨rfl, (C2_setPassword_amended toyCrypto exCredSt "p2".data "t".data).2.1 _ rfl⟩⟩

/-- Counterexample to C2 as stated: starting from the locked state with
the credential record for `exPw`, `changePassword(exPw, "p2")` succeeds but
leaves the master key derived from the OLD password `exPw`, which differs
from the KDF of the new password `"p2"` — the inner `setPassword("p2")`
found a key already cached (derived from `exPw` during verification) and
skipped the derivation. -/
theorem C2_counterexample :
    (changePassword toyCrypto (lock exCredSt) exPw "p2".data "t".data).1 = true ∧
    (changePassword toyCrypto (lock exCredSt) exPw "p2".data "t".data).2.masterKey =
      some (toyCrypto.pbkdf2Sync exPw masterKeySalt 5000 32) ∧
    toyCrypto.pbkdf2Sync exPw masterKeySalt 5000 32 ≠
      toyCrypto.pbkdf2Sync "p2".data masterKeySalt 5000 32 :=
  ⟨rfl, rfl, by decide⟩

/-- `generateMasterKey` never touches the failed-attempt counter. -/
theorem generateMasterKey_failedAttempts (C : CryptoPrims) (s : SecurityState)
    (pw : Str) : (generateMasterKey C s pw).failedAttempts = s.failedAttempts := by
  unfold generateMasterKey
  split <;> rfl

/-- After `generateMasterKey` a master key is always cached. -/
theorem generateMasterKey_isSome (C : CryptoPrims) (s : SecurityState)
    (pw : Str) : ((generateMasterKey C s pw).masterKey).isSome = true := by
  unfold generateMasterKey
  split
  · rename_i k heq
    rw [heq]
    rfl
  · rfl

/-- `verifySalt` only touches the `stSalt` storage entry. -/
theorem verifySalt_preserves (st : SecurityState) :
    ((verifySalt st).2).masterKey = st.masterKey ∧
    ((verifySalt st).2).failedAttempts = st.failedAttempts := by
  unfold verifySalt
  split
  · exact ⟨rfl, rfl⟩
  · split <;> exact ⟨rfl, rfl⟩

/-- With a cached master key, `encryptBuffer` succeeds with the derived
per-file key and deterministic IV. -/
theorem encryptBuffer_ok (C : CryptoPrims) (st : SecurityState) (d : Bytes)
    (fid : Str) (k : Bytes) (hmk : st.masterKey = some k) :
    encryptBuffer C st d fid =
      .ok (C.aesCbcEnc (C.hmacSHA256 k fid) (generateDeterministicIV C fid) d) := by
  simp [encryptBuffer, deriveFileKey, hmk]

/-- Every path of `verifyPassword` that returns `false` on a locked state
leaves the master key absent. -/
theorem verifyPassword_false_masterKey (C : CryptoPrims) (st : SecurityState)
    (pw : Str) (hmk : st.masterKey = none)
    (hfalse : (verifyPassword C st pw).1 = false) :
    ((verifyPassword C st pw).2).masterKey = none := by
  have key : ∀ b s2, verifyPassword C st pw = (b, s2) → b = false →
      s2.masterKey = none := by
    intro b s2 hv hb
    unfold verifyPassword at hv
    split at hv
    · injection hv with h1 h2
      rw [← h2]
      exact hmk
    · split at hv
      · rename_i st1 heq
        injection hv with h1 h2
        rw [← h2]
        have := (verifySalt_preserves st).1
        rw [heq] at this
        exact this.trans hmk
      · rename_i salt st1 heq
        split at hv
        · injection hv with h1 h2
          exact Bool.noConfusion (h1.trans hb)
        · split at hv
          · injection hv with h1 h2
            rw [← h2]
            rfl
          · injection hv with h1 h2
            rw [← h2]
            have := (verifySalt_preserves st).1
            rw [heq] at this
            exact this.trans hmk
  exact key _ _ Prod.mk.eta.symm hfalse

/-- Every path of `verifyPassword` that returns `true` leaves a cached
master key. -/
theorem verifyPassword_true_masterKey (C : CryptoPrims) (st : SecurityState)
    (pw : Str) (htrue : (verifyPassword C st pw).1 = true) :
    (((verifyPassword C st pw).2).masterKey).isSome = true := by
  have key : ∀ b s2, verifyPassword C st pw = (b, s2) → b = true →
      (s2.masterKey).isSome = true := by
    intro b s2 hv hb
    unfold verifyPassword at hv
    split at hv
    · injection hv with h1 h2
      exact Bool.noConfusion (h1.trans hb)
    · split at hv
      · injection hv with h1 h2
        exact Bool.noConfusion (h1.trans hb)
      · split at hv
        · injection hv with h1 h2
          rw [← h2]
          exact generateMasterKey_isSome C _ pw
        · split at hv <;>
          · injection hv with h1 h2
            exact Bool.noConfusion (h1.trans hb)
  exact key _ _ Prod.mk.eta.symm htrue

/-- C10: starting below the threshold, after any `verifyPassword` call the
in-memory failed-attempt counter is strictly below `MAX_FAILED_ATTEMPTS`
(5): a match resets it to 0, a wipe at the threshold resets it to 0, and a
below-threshold mismatch leaves it at most 4; so the value observable
between public operations stays in `0..4`. -/
theorem C10_failedAttempts_invariant (C : CryptoPrims) (st : SecurityState)
    (pw : Str) (h : st.failedAttempts < MAX_FAILED_ATTEMPTS) :
    ((verifyPassword C st pw).2).failedAttempts < MAX_FAILED_ATTEMPTS ∧
    ((verifyPassword C st pw).1 = true →
      ((verifyPassword C st pw).2).failedAttempts = 0) := by
  have key : ∀ b s2, verifyPassword C st pw = (b, s2) →
      s2.failedAttempts < MAX_FAILED_ATTEMPTS ∧
      (b = true → s2.failedAttempts = 0) := by
    intro b s2 hv
    unfold verifyPassword at hv
    split at hv
    · injection hv with h1 h2
      rw [← h2]
      exact ⟨h, fun hb => Bool.noConfusion (h1.trans hb)⟩
    · split at hv
      · rename_i st1 heq
        injection hv with h1 h2
        rw [← h2]
        have hp := (verifySalt_preserves st).2
        rw [heq] at hp
        exact ⟨by rw [hp]; exact h, fun hb => Bool.noConfusion (h1.trans hb)⟩
      · rename_i salt st1 heq
        split at hv
        · injection hv with h1 h2
          rw [← h2]
          constructor
          · simp [generateMasterKey_failedAttempts, MAX_FAILED_ATTEMPTS]
          · intro _
            simp [generateMasterKey_failedAttempts]
        · split at hv
          · injection hv with h1 h2
            rw [← h2]
            exact ⟨by simp [wipeAllKeys, MAX_FAILED_ATTEMPTS],
              fun hb => Bool.noConfusion (h1.trans hb)⟩
          · rename_i hthr
            injection hv with h1 h2
            rw [← h2]
            refine ⟨?_, fun hb => Bool.noConfusion (h1.trans hb)⟩
            simp only [MAX_FAILED_ATTEMPTS, not_le] at hthr ⊢
            exact hthr
  exact ⟨(key _ _ Prod.mk.eta.symm).1, (key _ _ Prod.mk.eta.symm).2⟩

/-- Witness for the C10 theorem: the credential state with counter 0 and a
wrong password. -/
theorem C10_failedAttempts_invariant_witness :
    exCredSt.failedAttempts < MAX_FAILED_ATTEMPTS ∧
    ((verifyPassword toyCrypto exCredSt "q".data).2).failedAttempts <
      MAX_FAILED_ATTEMPTS ∧
    ((verifyPassword toyCrypto exCredSt "q".data).1 = true →
      ((verifyPassword toyCrypto exCredSt "q".data).2).failedAttempts = 0) :=
  ⟨by decide,
    (C10_failedAttempts_invariant toyCrypto exCredSt "q".data (by decide)).1,
    (C10_failedAttempts_invariant toyCrypto exCredSt "q".data (by decide)).2⟩

/-- C4: after `lock()` the master key is gone and every
`encryptBuffer`/`decryptBuffer` call (hence every chunk operation) fails
with the not-authenticated error; failed `verifyPassword` calls and failed
`restoreMasterKey` calls leave the key absent, so the failure persists; a
successful `verifyPassword` or `restoreMasterKey` re-populates the master
key, after which `encryptBuffer` succeeds again. -/
theorem C4_lock_blocks_until_reauth (C : CryptoPrims) :
    (∀ st : SecurityState, (lock st).masterKey = none) ∧
    (∀ (st : SecurityState) (d : Bytes) (fid : Str), st.masterKey = none →
      encryptBuffer C st d fid = .error notAuthenticatedMsg ∧
      decryptBuffer C st d fid = .error notAuthenticatedMsg) ∧
    (∀ (st : SecurityState) (pw : Str), st.masterKey = none →
      (verifyPassword C st pw).1 = false →
      ((verifyPassword C st pw).2).masterKey = none) ∧
    (∀ st : SecurityState, st.kcMasterKey = none →
      restoreMasterKey C st = (false, st)) ∧
    (∀ (st : SecurityState) (pw : Str), (verifyPassword C st pw).1 = true →
      ∃ k, ((verifyPassword C st pw).2).masterKey = some k ∧
        ∀ (d : Bytes) (fid : Str),
          encryptBuffer C (verifyPassword C st pw).2 d fid =
            .ok (C.aesCbcEnc (C.hmacSHA256 k fid)
              (generateDeterministicIV C fid) d)) ∧
    (∀ (st : SecurityState) (hex : Str), st.kcMasterKey = some hex →
      (restoreMasterKey C st).1 = true ∧
      ((restoreMasterKey C st).2).masterKey = some (C.fromHex hex) ∧
      ∀ (d : Bytes) (fid : Str),
        encryptBuffer C (restoreMasterKey C st).2 d fid =
          .ok (C.aesCbcEnc (C.hmacSHA256 (C.fromHex hex) fid)
            (generateDeterministicIV C fid) d)) := by
  refine ⟨fun st => rfl, ?_, ?_, ?_, ?_, ?_⟩
  · intro st d fid hmk
    constructor
    · simp [encryptBuffer, deriveFileKey, hmk]
    · simp [decryptBuffer, deriveFileKey, hmk]
  · intro st pw hmk hfalse
    exact verifyPassword_false_masterKey C st pw hmk hfalse
  · intro st h
    unfold restoreMasterKey
    rw [h]
  · intro st pw htrue
    have hs := verifyPassword_true_masterKey C st pw htrue
    obtain ⟨k, hk⟩ := Option.isSome_iff_exists.mp hs
    exact ⟨k, hk, fun d fid => encryptBuffer_ok C _ d fid k hk⟩
  · intro st hex h
    have hr : restoreMasterKey C st =
        (true, { st with masterKey := some (C.fromHex hex), timerActive := true }) := by
      unfold restoreMasterKey
      rw [h]
    refine ⟨by rw [hr], by rw [hr], fun d fid => ?_⟩
    rw [hr]
    exact encryptBuffer_ok C _ d fid _ rfl

/-- Witness for the C4 theorem: a concrete locked state, a failing and a
succeeding verification, and a master-key restore. -/
theorem C4_lock_blocks_until_reauth_witness :
    (lock exCredSt).masterKey = none ∧
    ((lock exCredSt).masterKey = none ∧
      encryptBuffer toyCrypto (lock exCredSt) [1] "f".data =
        .error notAuthenticatedMsg ∧
      decryptBuffer toyCrypto (lock exCredSt) [1] "f".data =
        .error notAuthenticatedMsg) ∧
    ((verifyPassword toyCrypto (lock exCredSt) "q".data).1 = false ∧
      ((verifyPassword toyCrypto (lock exCredSt) "q".data).2).masterKey = none) ∧
    ((wipeAllKeys exCredSt).kcMasterKey = none ∧
      restoreMasterKey toyCrypto (wipeAllKeys exCredSt) =
        (false, wipeAllKeys exCredSt)) ∧
    ((verifyPassword toyCrypto (lock exCredSt) exPw).1 = true ∧
      ((verifyPassword toyCrypto (lock exCredSt) exPw).2).masterKey =
        some (toyCrypto.pbkdf2Sync exPw masterKeySalt 5000 32) ∧
      encryptBuffer toyCrypto (verifyPassword toyCrypto (lock exCredSt) exPw).2
          [1] "f".data =
        .ok (toyCrypto.aesCbcEnc
          (toyCrypto.hmacSHA256 (toyCrypto.pbkdf2Sync exPw masterKeySalt 5000 32)
            "f".data)
          (generateDeterministicIV toyCrypto "f".data) [1])) ∧
    (exCredSt.kcMasterKey.isSome = true ∧
      (restoreMasterKey toyCrypto exCredSt).1 = true) := by
  have T := C4_lock_blocks_until_reauth toyCrypto
  obtain ⟨k, hk, he⟩ := T.2.2.2.2.1 (lock exCredSt) exPw (by decide)
  have h0 : ((verifyPassword toyCrypto (lock exCredSt) exPw).2).masterKey =
      some (toyCrypto.pbkdf2Sync exPw masterKeySalt 5000 32) := by rfl
  have hkv : k = toyCrypto.pbkdf2Sync exPw masterKeySalt 5000 32 :=
    Option.some.inj (hk.symm.trans h0)
  refine ⟨T.1 exCredSt, ⟨rfl, T.2.1 (lock exCredSt) [1] "f".data rfl⟩,
    ⟨by decide, T.2.2.1 (lock exCredSt) "q".data rfl (by decide)⟩,
    ⟨rfl, T.2.2.2.1 (wipeAllKeys exCredSt) rfl⟩,
    ⟨by decide, h0, ?_⟩,
    ⟨rfl, (T.2.2.2.2.2 exCredSt
      (toyCrypto.toHex (toyCrypto.pbkdf2Sync exPw masterKeySalt 5000 32)) rfl).1⟩⟩
  rw [← hkv]
  exact he [1] "f".data

/-- C3: from a freshly authenticated state (counter 0, credential and salt
stored) five consecutive `verifyPassword` calls with a non-matching
password return `false`; the first four only increment the counter (the
credential survives, `isPasswordSet` stays true), and the fifth invokes the
wipe before returning `false`, after which `isPasswordSet` is false, the
Keychain credential is gone and no master key remains in memory. -/
theorem C3_lockout (C : CryptoPrims) (st0 : SecurityState)
    (pw storedHash psalt : Str) (hkc : st0.kcPassword = some storedHash)
    (hsalt : st0.stSalt = some psalt) (h0 : st0.failedAttempts = 0)
    (hne : hashPassword C pw psalt ≠ storedHash) :
    verifyPassword C st0 pw = (false, { st0 with failedAttempts := 1 }) ∧
    verifyPassword C { st0 with failedAttempts := 1 } pw =
      (false, { st0 with failedAttempts := 2 }) ∧
    verifyPassword C { st0 with failedAttempts := 2 } pw =
      (false, { st0 with failedAttempts := 3 }) ∧
    verifyPassword C { st0 with failedAttempts := 3 } pw =
      (false, { st0 with failedAttempts := 4 }) ∧
    verifyPassword C { st0 with failedAttempts := 4 } pw =
      (false, wipeAllKeys { st0 with failedAttempts := 5 }) ∧
    isPasswordSet { st0 with failedAttempts := 4 } = true ∧
    isPasswordSet (wipeAllKeys { st0 with failedAttempts := 5 }) = false ∧
    (wipeAllKeys { st0 with failedAttempts := 5 }).masterKey = none ∧
    (wipeAllKeys { st0 with failedAttempts := 5 }).kcPassword = none := by
  refine ⟨?_, ?_, ?_, ?_, ?_, ?_, rfl, rfl, rfl⟩
  · have v := verifyPassword_wrong C st0 pw storedHash psalt hkc hsalt hne
    rw [h0] at v
    rw [if_neg (by norm_num [MAX_FAILED_ATTEMPTS])] at v
    exact v
  · have v := verifyPassword_wrong C { st0 with failedAttempts := 1 } pw
      storedHash psalt hkc hsalt hne
    rw [if_neg (by norm_num [MAX_FAILED_ATTEMPTS])] at v
    exact v
  · have v := verifyPassword_wrong C { st0 with failedAttempts := 2 } pw
      storedHash psalt hkc hsalt hne
    rw [if_neg (by norm_num [MAX_FAILED_ATTEMPTS])] at v
    exact v
  · have v := verifyPassword_wrong C { st0 with failedAttempts := 3 } pw
      storedHash psalt hkc hsalt hne
    rw [if_neg (by norm_num [MAX_FAILED_ATTEMPTS])] at v
    exact v
  · have v := verifyPassword_wrong C { st0 with failedAttempts := 4 } pw
      storedHash psalt hkc hsalt hne
    rw [if_pos (by norm_num [MAX_FAILED_ATTEMPTS])] at v
    exact v
  · simp [isPasswordSet, hkc]

/-- Witness for the C3 theorem: the concrete credential state for `exPw`
and the non-matching password `"q"`. -/
theorem C3_lockout_witness :
    (exCredSt.kcPassword = some (hashPassword toyCrypto exPw exSalt) ∧
      exCredSt.stSalt = some exSalt ∧ exCredSt.failedAttempts = 0 ∧
      hashPassword toyCrypto "q".data exSalt ≠ hashPassword toyCrypto exPw exSalt) ∧
    verifyPassword toyCrypto exCredSt "q".data =
      (false, { exCredSt with failedAttempts := 1 }) ∧
    verifyPassword toyCrypto { exCredSt with failedAttempts := 4 } "q".data =
      (false, wipeAllKeys { exCredSt with failedAttempts := 5 }) ∧
    isPasswordSet (wipeAllKeys { exCredSt with failedAttempts := 5 }) = false ∧
    (wipeAllKeys { exCredSt with failedAttempts := 5 }).masterKey = none := by
  have T := C3_lockout toyCrypto exCredSt "q".data
    (hashPassword toyCrypto exPw exSalt) exSalt rfl rfl rfl (by decide)
  exact ⟨⟨rfl, rfl, rfl, by decide⟩, T.1, T.2.2.2.2.1, T.2.2.2.2.2.2.1,
    T.2.2.2.2.2.2.2.1⟩

/-- C5 (amended): `deleteSecureFile(fileId)` of the streaming `FileService`
removes the ciphertext file and the thumbnail (their absence is skipped,
not an error) and removes the metadata record, returning `true`; it returns
`false` exactly when `fileId` is not CURRENTLY a known record id (not
"never known": a second delete of the same id returns `false` although the
id was known before — see the counterexample). -/
theorem C5_delete_amended (td : Str) (vs : VaultState) (fid : Str) :
    ((deleteSecureFile td vs fid).1 = false ↔
      ∀ m ∈ vs.sec.stFiles, m.id ≠ fid) ∧
    (∀ m, vs.sec.stFiles.find? (fun f => f.id == fid) = some m →
      deleteSecureFile td vs fid =
        (true, { sec := deleteFileMetadata vs.sec fid,
                 disk := (vs.disk.filter (fun p => p ≠ m.encryptedPath)).filter
                   (fun p => p ≠ thumbPath td fid) }) ∧
      m.encryptedPath ∉ ((deleteSecureFile td vs fid).2).disk ∧
      thumbPath td fid ∉ ((deleteSecureFile td vs fid).2).disk ∧
      ∀ f ∈ ((deleteSecureFile td vs fid).2).sec.stFiles, f.id ≠ fid) := by
  constructor
  · unfold deleteSecureFile
    cases hf : vs.sec.stFiles.find? (fun f => f.id == fid) with
    | none =>
      simp only [true_iff]
      rw [List.find?_eq_none] at hf
      intro m hm
      have := hf m hm
      simpa using this
    | some m =>
      constructor
      · intro hcontra
        exact absurd hcontra (by simp)
      · intro hall
        exfalso
        have hmem := List.mem_of_find?_eq_some hf
        have heq := List.find?_some hf
        exact (hall m hmem) (by simpa using heq)
  · intro m hf
    have hdel : deleteSecureFile td vs fid =
        (true, { sec := deleteFileMetadata vs.sec fid,
                 disk := (vs.disk.filter (fun p => p ≠ m.encryptedPath)).filter
                   (fun p => p ≠ thumbPath td fid) }) := by
      unfold deleteSecureFile
      rw [hf]
    refine ⟨hdel, ?_, ?_, ?_⟩
    · rw [hdel]
      intro hmem
      have := (List.mem_filter.mp (List.mem_filter.mp hmem).1).2
      simp at this
    · rw [hdel]
      intro hmem
      have := (List.mem_filter.mp hmem).2
      simp at this
    · rw [hdel]
      intro f hmem
      have := (List.mem_filter.mp hmem).2
      simpa using this

/-- Witness for the C5 theorem: deleting the stored record `exRec1`
succeeds and removes both files; deleting an unknown id returns `false`. -/
theorem C5_delete_amended_witness :
    exVault.sec.stFiles.find? (fun f => f.id == "f1".data) = some exRec1 ∧
    (deleteSecureFile exThumbDir exVault "f1".data).1 = true ∧
    exRec1.encryptedPath ∉
      ((deleteSecureFile exThumbDir exVault "f1".data).2).disk ∧
    thumbPath exThumbDir "f1".data ∉
      ((deleteSecureFile exThumbDir exVault "f1".data).2).disk ∧
    (deleteSecureFile exThumbDir exVault "f2".data).1 = false := by
  have T := C5_delete_amended exThumbDir exVault "f1".data
  have T2 := C5_delete_amended exThumbDir exVault "f2".data
  obtain ⟨heq, hnp, hnt, hrec⟩ := T.2 exRec1 (by decide)
  exact ⟨by decide, by rw [heq], hnp, hnt, T2.1.mpr (by decide)⟩

/-- Counterexample to C5 as stated: `"f1"` was a known record id (it is the
id of `exRec1`, present in the collection), the first delete returns
`true`, and a second delete of the same id returns `false` — so returning
`false` does not imply the id was NEVER known, only that it is not
currently known. -/
theorem C5_counterexample :
    exRec1 ∈ exVault.sec.stFiles ∧ exRec1.id = "f1".data ∧
    (deleteSecureFile exThumbDir exVault "f1".data).1 = true ∧
    (deleteSecureFile exThumbDir
      ((deleteSecureFile exThumbDir exVault "f1".data).2) "f1".data).1 = false :=
  ⟨by decide, by decide, by decide, by decide⟩

/-! ## Version-2 framing lemmas -/

/-- Big-endian length decoding inverts encoding below `2^32`. -/
theorem decodeBE32_encodeBE32 (n : Nat) (h : n < 2 ^ 32) :
    decodeBE32 (encodeBE32 n) = n := by
  have h2 : n < 4294967296 := h
  show n / 16777216 % 256 * 16777216 + n / 65536 % 256 * 65536 +
    n / 256 % 256 * 256 + n % 256 = n
  omega

/-- Unfolding equation for the version-2 parse loop on a nonempty file. -/
theorem decryptV2Loop_cons (C : CryptoPrims) (st : SecurityState) (fid : Str)
    (i : Nat) (b : Nat) (bs : Bytes) :
    decryptV2Loop C st fid i (b :: bs) =
      match decryptBuffer C st
          (((b :: bs).drop 4).take (decodeBE32 ((b :: bs).take 4)))
          (chunkId fid i) with
      | .error e => .error e
      | .ok d =>
        match decryptV2Loop C st fid (i + 1)
            (((b :: bs).drop 4).drop (decodeBE32 ((b :: bs).take 4))) with
        | .error e => .error e
        | .ok ds => .ok (d :: ds) := by
  rw [decryptV2Loop]

/-- One parse step consumes exactly one framed record. -/
theorem decryptV2Loop_step (C : CryptoPrims) (st : SecurityState) (fid : Str)
    (i : Nat) (ct tail d : Bytes) (hlen : ct.length < 2 ^ 32)
    (hdec : decryptBuffer C st ct (chunkId fid i) = .ok d) :
    decryptV2Loop C st fid i (encodeBE32 ct.length ++ ct ++ tail) =
      match decryptV2Loop C st fid (i + 1) tail with
      | .error e => .error e
      | .ok ds => .ok (d :: ds) := by
  have hshape : encodeBE32 ct.length ++ ct ++ tail =
      ct.length / 2 ^ 24 % 256 :: ct.length / 2 ^ 16 % 256 ::
      ct.length / 2 ^ 8 % 256 :: ct.length % 256 :: (ct ++ tail) := by
    simp [encodeBE32]
  have htake : encodeBE32 ct.length ++ ct ++ tail =
      encodeBE32 ct.length ++ (ct ++ tail) := by
    rw [List.append_assoc]
  have h4 : (encodeBE32 ct.length).length = 4 := rfl
  have hta : (encodeBE32 ct.length ++ (ct ++ tail)).take 4 = encodeBE32 ct.length := by
    rw [← h4]
    exact List.take_left _ _
  have hdr : (encodeBE32 ct.length ++ (ct ++ tail)).drop 4 = ct ++ tail := by
    rw [← h4]
    exact List.drop_left _ _
  have htc : (ct ++ tail).take ct.length = ct := List.take_left _ _
  have hdc : (ct ++ tail).drop ct.length = tail := List.drop_left _ _
  rw [hshape, decryptV2Loop_cons, ← hshape, htake, hta, hdr,
    decodeBE32_encodeBE32 ct.length hlen, htc, hdc, hdec]

/-- With a cached master key and no cancellation, the store loop completes
and appends exactly the framed records of the chunks in index order. -/
theorem secureFileLoop_no_cancel (C : CryptoPrims) (st : SecurityState)
    (fid : Str) (mk : Bytes) (hmk : st.masterKey = some mk) :
    ∀ (chunks : List Bytes) (i : Nat),
      secureFileLoop C st fid (fun _ => false) i chunks =
        .completed ((List.enumFrom i chunks).map (v2Packet C mk fid)) := by
  intro chunks
  induction chunks with
  | nil => intro i; rfl
  | cons c cs ih =>
    intro i
    simp only [secureFileLoop, List.enumFrom_cons, List.map_cons]
    rw [encryptBuffer_ok C st c (chunkId fid i) mk hmk, ih (i + 1)]
    rfl

/-- The version-2 parse loop recovers the chunks from the framed records
(given the cipher contract and the `2^32` header bound on the ciphertext
lengths that actually occur). -/
theorem decryptV2Loop_packets (C : CryptoPrims) (st : SecurityState)
    (fid : Str) (mk : Bytes) (hC : CipherRoundTrip C)
    (hmk : st.masterKey = some mk) :
    ∀ (chunks : List Bytes) (i : Nat),
      (∀ p ∈ List.enumFrom i chunks,
        (C.aesCbcEnc (C.hmacSHA256 mk (chunkId fid p.1))
          (generateDeterministicIV C (chunkId fid p.1)) p.2).length < 2 ^ 32) →
      decryptV2Loop C st fid i
        (((List.enumFrom i chunks).map (v2Packet C mk fid)).flatten) =
        .ok chunks := by
  intro chunks
  induction chunks with
  | nil =>
    intro i _
    show decryptV2Loop C st fid i [] = .ok []
    rw [decryptV2Loop]
  | cons c cs ih =>
    intro i hlen
    have hflat : ((List.enumFrom i (c :: cs)).map (v2Packet C mk fid)).flatten =
        encodeBE32 (C.aesCbcEnc (C.hmacSHA256 mk (chunkId fid i))
            (generateDeterministicIV C (chunkId fid i)) c).length ++
          C.aesCbcEnc (C.hmacSHA256 mk (chunkId fid i))
            (generateDeterministicIV C (chunkId fid i)) c ++
          ((List.enumFrom (i + 1) cs).map (v2Packet C mk fid)).flatten := by
      simp [List.enumFrom_cons, v2Packet, List.append_assoc]
    have hdec : decryptBuffer C st
        (C.aesCbcEnc (C.hmacSHA256 mk (chunkId fid i))
          (generateDeterministicIV C (chunkId fid i)) c) (chunkId fid i) = .ok c := by
      simp [decryptBuffer, deriveFileKey, hmk, hC _ _ _]
    have hhd := hlen (i, c) (by rw [List.enumFrom_cons]; exact List.mem_cons_self _ _)
    have htl : ∀ p ∈ List.enumFrom (i + 1) cs,
        (C.aesCbcEnc (C.hmacSHA256 mk (chunkId fid p.1))
          (generateDeterministicIV C (chunkId fid p.1)) p.2).length < 2 ^ 32 := by
      intro p hp
      exact hlen p (by rw [List.enumFrom_cons]; exact List.mem_cons_of_mem _ hp)
    rw [hflat, decryptV2Loop_step C st fid i _ _ c hhd hdec, ih (i + 1) htl]

/-- C7: with a cached master key (and a cipher whose ciphertext lengths fit
the 4-byte header), a file stored by the streaming `secureFile` is written
as exactly the sequence of records `[4-byte big-endian ciphertext length]
[ciphertext]`, one per plaintext chunk in index order, chunk `i` encrypted
under `` `${fileId}_chunk_${i}` `` — the spec-worded `specFramingV2` — and
the version-2 decrypt path of `getSecureFileUri` parses exactly this
framing, recovering the original bytes. -/
theorem C7_formatV2_framing (C : CryptoPrims) (st : SecurityState) (fid : Str)
    (mk : Bytes) (data : Bytes) (hC : CipherRoundTrip C)
    (hmk : st.masterKey = some mk)
    (hlen : ∀ p ∈ (chunkList CHUNK_SIZE_V2 data).enum,
      (C.aesCbcEnc (C.hmacSHA256 mk (chunkId fid p.1))
        (generateDeterministicIV C (chunkId fid p.1)) p.2).length < 2 ^ 32) :
    (secureFileV2 C st fid (fun _ => false) data).1 =
      { status := .completed, error := none } ∧
    (secureFileV2 C st fid (fun _ => false) data).2 =
      specFramingV2 C mk fid (chunkList CHUNK_SIZE_V2 data) ∧
    getSecureFileUriV2 C st fid (fun _ => false)
      (secureFileV2 C st fid (fun _ => false) data).2 = .ok data := by
  have hloop := secureFileLoop_no_cancel C st fid mk hmk (chunkList CHUNK_SIZE_V2 data) 0
  have hstore : secureFileV2 C st fid (fun _ => false) data =
      ({ status := .completed, error := none },
        ((List.enumFrom 0 (chunkList CHUNK_SIZE_V2 data)).map
          (v2Packet C mk fid)).flatten) := by
    unfold secureFileV2
    rw [hloop]
    rfl
  refine ⟨by rw [hstore], by rw [hstore]; rfl, ?_⟩
  rw [hstore]
  unfold getSecureFileUriV2
  rw [decryptV2Loop_packets C st fid mk hC hmk (chunkList CHUNK_SIZE_V2 data) 0 hlen]
  show Except.ok ((chunkList CHUNK_SIZE_V2 data).flatten) = Except.ok data
  rw [chunkList_flatten CHUNK_SIZE_V2 (by norm_num [CHUNK_SIZE_V2]) data]

/-- Witness for the C7 theorem: a concrete two-byte file under the concrete
library instance. -/
theorem C7_formatV2_framing_witness :
    CipherRoundTrip toyCrypto ∧ exAuthSt.masterKey = some [7] ∧
    (secureFileV2 toyCrypto exAuthSt "f".data (fun _ => false) [1, 2]).1 =
      { status := .completed, error := none } ∧
    (secureFileV2 toyCrypto exAuthSt "f".data (fun _ => false) [1, 2]).2 =
      specFramingV2 toyCrypto [7] "f".data (chunkList CHUNK_SIZE_V2 [1, 2]) ∧
    getSecureFileUriV2 toyCrypto exAuthSt "f".data (fun _ => false)
      (secureFileV2 toyCrypto exAuthSt "f".data (fun _ => false) [1, 2]).2 =
      .ok [1, 2] := by
  have T := C7_formatV2_framing toyCrypto exAuthSt "f".data [7] [1, 2]
    toyCrypto_cipherRoundTrip rfl (by decide)
  exact ⟨toyCrypto_cipherRoundTrip, rfl, T.1, T.2.1, T.2.2⟩

/-- With the cancellation flag first observed true at the check before
chunk `k`, the store loop writes exactly the first `k` records and throws
`'Cancelled'`. -/
theorem secureFileLoop_cancel_at (C : CryptoPrims) (st : SecurityState)
    (fid : Str) (mk : Bytes) (hmk : st.masterKey = some mk)
    (cancel : Nat → Bool) :
    ∀ (k : Nat) (chunks : List Bytes) (i : Nat),
      (∀ j, j < k → cancel (i + j) = false) → cancel (i + k) = true →
      k < chunks.length →
      secureFileLoop C st fid cancel i chunks =
        .cancelled ((List.enumFrom i (chunks.take k)).map (v2Packet C mk fid)) := by
  intro k
  induction k with
  | zero =>
    intro chunks i hfalse htrue hk
    match chunks, hk with
    | c :: cs, _ =>
      simp only [secureFileLoop]
      rw [if_pos (show cancel i = true from htrue)]
      rfl
  | succ m ih =>
    intro chunks i hfalse htrue hk
    match chunks, hk with
    | c :: cs, hk =>
      simp only [secureFileLoop]
      rw [if_neg (by rw [show i = i + 0 from rfl]; rw [hfalse 0 (by omega)]; simp),
        encryptBuffer_ok C st c (chunkId fid i) mk hmk,
        ih cs (i + 1)
          (fun j hj => by rw [show i + 1 + j = i + (j + 1) by omega]; exact hfalse (j + 1) (by omega))
          (by rw [show i + 1 + m = i + (m + 1) by omega]; exact htrue)
          (by simpa using hk)]
      rfl

/-- C6 (amended): cancellation is consulted only by the STORE loop.  For a
store operation whose flag is first seen true at the check before chunk
`k` (with `k` within range), the operation reaches the `failed` state with
the reason `'Cancelled'` and exactly the first `k` chunks have been
encrypted and written.  The version-2 retrieve loop of `getSecureFileUri`
never consults the flag: its result is independent of the cancellation
state (last conjunct), so cancelling a retrieve stops nothing — see the
counterexample. -/
theorem C6_cancellation_amended (C : CryptoPrims) (st : SecurityState)
    (fid : Str) (mk : Bytes) (data : Bytes) (cancel : Nat → Bool) (k : Nat)
    (hmk : st.masterKey = some mk)
    (hfalse : ∀ j, j < k → cancel j = false) (htrue : cancel k = true)
    (hk : k < (chunkList CHUNK_SIZE_V2 data).length) :
    (secureFileV2 C st fid cancel data).1 =
      { status := .failed, error := some "Cancelled" } ∧
    (secureFileV2 C st fid cancel data).2 =
      specFramingV2 C mk fid ((chunkList CHUNK_SIZE_V2 data).take k) ∧
    (∀ cancelA cancelB encFile,
      getSecureFileUriV2 C st fid cancelA encFile =
        getSecureFileUriV2 C st fid cancelB encFile) := by
  have hloop := secureFileLoop_cancel_at C st fid mk hmk cancel k
    (chunkList CHUNK_SIZE_V2 data) 0 (fun j hj => by simpa using hfalse j hj)
    (by simpa using htrue) hk
  have hstore : secureFileV2 C st fid cancel data =
      ({ status := .failed, error := some "Cancelled" },
        ((List.enumFrom 0 ((chunkList CHUNK_SIZE_V2 data).take k)).map
          (v2Packet C mk fid)).flatten) := by
    unfold secureFileV2
    rw [hloop]
    rfl
  exact ⟨by rw [hstore], by rw [hstore]; rfl, fun _ _ _ => rfl⟩

/-- Witness for the C6 theorem: cancellation observed at the very first
chunk boundary of a concrete store; nothing is written and the operation
fails with `'Cancelled'`. -/
theorem C6_cancellation_amended_witness :
    exAuthSt.masterKey = some [7] ∧
    (fun _ : Nat => true) 0 = true ∧
    0 < (chunkList CHUNK_SIZE_V2 [1, 2]).length ∧
    (secureFileV2 toyCrypto exAuthSt "f".data (fun _ => true) [1, 2]).1 =
      { status := .failed, error := some "Cancelled" } ∧
    (secureFileV2 toyCrypto exAuthSt "f".data (fun _ => true) [1, 2]).2 =
      specFramingV2 toyCrypto [7] "f".data ((chunkList CHUNK_SIZE_V2 [1, 2]).take 0) ∧
    getSecureFileUriV2 toyCrypto exAuthSt "f".data (fun _ => true) [] =
      getSecureFileUriV2 toyCrypto exAuthSt "f".data (fun _ => false) [] := by
  have T := C6_cancellation_amended toyCrypto exAuthSt "f".data [7] [1, 2]
    (fun _ => true) 0 rfl (fun j hj => absurd hj (by omega)) rfl (by decide)
  exact ⟨rfl, rfl, by decide, T.1, T.2.1, T.2.2 _ _ _⟩

/-- Counterexample to C6 as stated: the version-2 retrieve loop decrypts
every chunk of a two-chunk file even when the cancellation flag reads true
at every chunk boundary — `getSecureFileUri` never consults
`isCancelled`, so a cancelled retrieve still processes all chunks (and the
operation cannot reach a cancelled-failed state through the loop). -/
theorem C6_counterexample :
    getSecureFileUriV2 toyCrypto exAuthSt "f".data (fun _ => true)
      (specFramingV2 toyCrypto [7] "f".data [[1], [2]]) = .ok [1, 2] := by
  have h := decryptV2Loop_packets toyCrypto exAuthSt "f".data [7]
    toyCrypto_cipherRoundTrip rfl [[1], [2]] 0 (by decide)
  unfold getSecureFileUriV2
  rw [show specFramingV2 toyCrypto [7] "f".data [[1], [2]] =
    ((List.enumFrom 0 [[1], [2]]).map (v2Packet toyCrypto [7] "f".data)).flatten
    from rfl, h]
  rfl

/-! ## Progress-sequence lemmas -/

/-- The chunk loop reports once per chunk. -/
theorem progressSeq_length (n : Nat) : (progressSeq n).length = n := by
  simp [progressSeq]

/-- The reported progress values are non-decreasing. -/
theorem progressSeq_pairwise (n : Nat) :
    (progressSeq n).Pairwise (fun a b => a ≤ b) := by
  unfold progressSeq
  refine List.Pairwise.map _ (fun a b hab => ?_) (List.pairwise_lt_range n)
  rcases Nat.eq_zero_or_pos n with hn | hn
  · subst hn
    norm_num
  · have hnq : (0 : ℚ) < (n : ℚ) := by exact_mod_cast hn
    have h1 : ((a : ℚ) + 1) ≤ ((b : ℚ) + 1) := by
      have hab2 : (a : ℚ) ≤ (b : ℚ) := by exact_mod_cast Nat.le_of_lt hab
      linarith
    exact mul_le_mul_of_nonneg_right
      ((div_le_div_iff_of_pos_right hnq).mpr h1) (by norm_num)

/-- For at least one chunk, the last reported progress value is 100. -/
theorem progressSeq_getLast (n : Nat) (hn : 0 < n) :
    (progressSeq n).getLast? = some 100 := by
  obtain ⟨m, rfl⟩ := Nat.exists_eq_succ_of_ne_zero (Nat.pos_iff_ne_zero.mp hn)
  unfold progressSeq
  rw [List.range_succ, List.map_append]
  simp only [List.map_cons, List.map_nil]
  rw [List.getLast?_concat]
  congr 1
  have hne : ((m : ℚ) + 1) ≠ 0 := by positivity
  push_cast
  rw [div_self hne, one_mul]

/-- 100 is reported only by the last iteration of the loop. -/
theorem progressSeq_100_last (n j : Nat) (hj : j < (progressSeq n).length)
    (h100 : (progressSeq n).get ⟨j, hj⟩ = 100) :
    j = (progressSeq n).length - 1 := by
  have hjn : j < n := by simpa [progressSeq_length] using hj
  have hval : (progressSeq n).get ⟨j, hj⟩ = (((j : ℚ) + 1) / (n : ℚ)) * 100 := by
    simp [progressSeq, List.get_eq_getElem]
  rw [hval] at h100
  have hnq : (0 : ℚ) < (n : ℚ) := by
    exact_mod_cast lt_of_le_of_lt (Nat.zero_le j) hjn
  have hne : (n : ℚ) ≠ 0 := ne_of_gt hnq
  have hq : ((j : ℚ) + 1) = (n : ℚ) := by
    field_simp at h100
    linarith
  have hn2 : j + 1 = n := by exact_mod_cast hq
  rw [progressSeq_length]
  omega

/-- The three progress properties bundled, for a loop of `n ≥ 1` chunks. -/
theorem progressSeq_props (n : Nat) (hn : 0 < n) :
    (progressSeq n).Pairwise (fun a b => a ≤ b) ∧
    (progressSeq n).getLast? = some 100 ∧
    ∀ j (hj : j < (progressSeq n).length),
      (progressSeq n).get ⟨j, hj⟩ = 100 → j = (progressSeq n).length - 1 :=
  ⟨progressSeq_pairwise n, progressSeq_getLast n hn,
    fun j hj h => progressSeq_100_last n j hj h⟩

/-- A nonempty buffer yields at least one chunk. -/
theorem chunkList_length_pos (n : Nat) (hn : 0 < n) (data : Bytes)
    (hd : data ≠ []) : 0 < (chunkList n data).length := by
  rw [chunkList_length]
  have h1 : 0 < data.length := List.length_pos.mpr hd
  exact Nat.div_pos (by omega) hn

/-- `String.prototype.split` always yields at least one part. -/
theorem splitChunks_ne_nil (s : Str) : splitChunks s ≠ [] := by
  unfold splitChunks
  split <;> simp

/-- The progress reported by a successful `encryptDataChunked` run is the
full loop sequence. -/
theorem encryptDataChunked_progress (C : CryptoPrims) (st : SecurityState)
    (data : Bytes) (fid : Str) (r : Str × List ℚ)
    (h : encryptDataChunked C st data fid = Except.ok r) :
    r.2 = progressSeq (chunkList CHUNK_SIZE data).length := by
  unfold encryptDataChunked at h
  cases he : encChunksFrom C st fid 0 (chunkList CHUNK_SIZE data) with
  | error e =>
    rw [he] at h
    exact Except.noConfusion h
  | ok es =>
    rw [he] at h
    have h2 : Except.ok ((joinChunks es,
        progressSeq (chunkList CHUNK_SIZE data).length) : Str × List ℚ) =
        Except.ok r := h
    injection h2 with h3
    rw [← h3]

/-- The progress reported by a successful `decryptDataChunked` run on
delimited input is the full loop sequence. -/
theorem decryptDataChunked_progress_delim (C : CryptoPrims)
    (st : SecurityState) (enc : Str) (fid : Str) (r : Bytes × List ℚ)
    (hd : hasDelim enc = true)
    (h : decryptDataChunked C st enc fid = Except.ok r) :
    r.2 = progressSeq (splitChunks enc).length := by
  unfold decryptDataChunked at h
  split at h
  · cases hdec : decChunksFrom C st fid 0 (splitChunks enc) with
    | error e =>
      rw [hdec] at h
      exact Except.noConfusion h
    | ok ds =>
      rw [hdec] at h
      have h2 : Except.ok ((ds.flatten,
          progressSeq (splitChunks enc).length) : Bytes × List ℚ) =
          Except.ok r := h
      injection h2 with h3
      rw [← h3]
  · rename_i hcond
    exact absurd hd hcond

/-- `decryptDataChunked` on delimiter-free input takes the legacy path and
reports no progress at all. -/
theorem decryptDataChunked_progress_legacy (C : CryptoPrims)
    (st : SecurityState) (enc : Str) (fid : Str) (r : Bytes × List ℚ)
    (hd : hasDelim enc = false)
    (h : decryptDataChunked C st enc fid = Except.ok r) : r.2 = [] := by
  unfold decryptDataChunked at h
  split at h
  · rename_i hcond
    exact Bool.noConfusion (hd.symm.trans hcond)
  · cases hdec : decryptData C st enc fid with
    | error e =>
      rw [hdec] at h
      exact Except.noConfusion h
    | ok d =>
      rw [hdec] at h
      have h2 : Except.ok ((d, ([] : List ℚ)) : Bytes × List ℚ) =
          Except.ok r := h
      injection h2 with h3
      rw [← h3]

/-- C8 (amended): on an input of `N ≥ 1` chunks, `encryptDataChunked`
reports a non-decreasing progress sequence whose final value is 100, with
100 reported only at the last chunk; `decryptDataChunked` does the same
whenever its input actually contains the `'|||CHUNK|||'` delimiter.  On
delimiter-free input (every legacy-format or single-chunk file — still an
input of `N = 1` chunk) `decryptDataChunked` takes the legacy path and
reports NO progress values at all, so its final progress value is not
100 — see the counterexample. -/
theorem C8_progress_amended (C : CryptoPrims) (st : SecurityState)
    (fid : Str) :
    (∀ data r, data ≠ [] →
      encryptDataChunked C st data fid = Except.ok r →
      r.2.Pairwise (fun a b => a ≤ b) ∧ r.2.getLast? = some 100 ∧
      ∀ j (hj : j < r.2.length), r.2.get ⟨j, hj⟩ = 100 →
        j = r.2.length - 1) ∧
    (∀ enc r, hasDelim enc = true →
      decryptDataChunked C st enc fid = Except.ok r →
      r.2.Pairwise (fun a b => a ≤ b) ∧ r.2.getLast? = some 100 ∧
      ∀ j (hj : j < r.2.length), r.2.get ⟨j, hj⟩ = 100 →
        j = r.2.length - 1) ∧
    (∀ enc r, hasDelim enc = false →
      decryptDataChunked C st enc fid = Except.ok r → r.2 = []) := by
  refine ⟨?_, ?_, ?_⟩
  · intro data r hd h
    have hr2 := encryptDataChunked_progress C st data fid r h
    have hpos : 0 < (chunkList CHUNK_SIZE data).length :=
      chunkList_length_pos CHUNK_SIZE (by norm_num [CHUNK_SIZE]) data hd
    rw [hr2]
    exact progressSeq_props _ hpos
  · intro enc r hdel h
    have hr2 := decryptDataChunked_progress_delim C st enc fid r hdel h
    have hpos : 0 < (splitChunks enc).length :=
      List.length_pos.mpr (splitChunks_ne_nil enc)
    rw [hr2]
    exact progressSeq_props _ hpos
  · intro enc r hdel h
    exact decryptDataChunked_progress_legacy C st enc fid r hdel h

/-- Witness for the C8 theorem: a two-byte single-chunk encryption reports
`[100]`; a concrete two-part delimited input decrypts with progress
`[50, 100]`; a concrete legacy-format input decrypts with no progress. -/
theorem C8_progress_amended_witness :
    ([5, 6] : Bytes) ≠ [] ∧
    (encryptDataChunked toyCrypto exAuthSt [5, 6] "f".data).map Prod.snd =
      Except.ok (progressSeq 1) ∧
    (progressSeq 1).Pairwise (fun a b => a ≤ b) ∧
    (progressSeq 1).getLast? = some 100 ∧
    hasDelim exEncC8 = true ∧
    (decryptDataChunked toyCrypto exAuthSt exEncC8 "f".data).map Prod.snd =
      Except.ok (progressSeq 2) ∧
    (progressSeq 2).Pairwise (fun a b => a ≤ b) ∧
    (progressSeq 2).getLast? = some 100 ∧
    hasDelim (toyB64 exCtBare) = false ∧
    (decryptDataChunked toyCrypto exAuthSt (toyB64 exCtBare) "f".data).map
      Prod.snd = Except.ok ([] : List ℚ) := by
  have T := C8_progress_amended toyCrypto exAuthSt "f".data
  have hvE : encryptDataChunked toyCrypto exAuthSt [5, 6] "f".data =
      Except.ok (toyB64 (toyCrypto.aesCbcEnc
        (toyCrypto.hmacSHA256 [7] (chunkId "f".data 0))
        (generateDeterministicIV toyCrypto (chunkId "f".data 0)) [5, 6]),
        progressSeq 1) := rfl
  have hE := T.1 [5, 6] _ (by decide) hvE
  have h1 : splitFirst DELIM exEncC8 = some (toyB64 exCtA, toyB64 exCtB) :=
    splitFirst_append _ _ (toyCrypto_b64NoBar exCtA)
  have hdel : hasDelim exEncC8 = true := by
    show (splitFirst DELIM exEncC8).isSome = true
    rw [h1]
    rfl
  have hB : '|' ∉ toyB64 exCtB := toyCrypto_b64NoBar exCtB
  have h2 : splitChunks exEncC8 = [toyB64 exCtA, toyB64 exCtB] := by
    rw [splitChunks_of_some _ _ _ h1,
      splitChunks_of_none _ (splitFirst_eq_none _ hB)]
  have hvD : decryptDataChunked toyCrypto exAuthSt exEncC8 "f".data =
      Except.ok ([5, 6], progressSeq 2) := by
    unfold decryptDataChunked
    rw [if_pos hdel, h2]
    rfl
  have hD := T.2.1 exEncC8 _ hdel hvD
  have hdelL : hasDelim (toyB64 exCtBare) = false :=
    hasDelim_eq_false _ (toyCrypto_b64NoBar exCtBare)
  have hvL : decryptDataChunked toyCrypto exAuthSt (toyB64 exCtBare)
      "f".data = Except.ok ([5], ([] : List ℚ)) := by
    unfold decryptDataChunked
    rw [if_neg (fun hc => Bool.noConfusion (hdelL.symm.trans hc))]
    rfl
  have hL := T.2.2 (toyB64 exCtBare) _ hdelL hvL
  exact ⟨by decide, by rw [hvE]; rfl, hE.1, hE.2.1, hdel, by rw [hvD]; rfl,
    hD.1, hD.2.1, hdelL, by rw [hvL]; rfl⟩

set_option maxRecDepth 4000 in
/-- Counterexample to C8 as stated: a one-chunk (legacy-format) encrypted
input decrypts successfully through `decryptDataChunked`, yet the sequence
of progress reports is empty — its final value is not 100, although the
input has `N = 1 ≥ 1` chunks and every chunk was processed. -/
theorem C8_counterexample :
    (encryptData toyCrypto exAuthSt [5] "f".data).bind
      (fun e => decryptDataChunked toyCrypto exAuthSt e "f".data) =
      Except.ok ([5], ([] : List ℚ)) ∧
    ([] : List ℚ).getLast? ≠ some 100 :=
  ⟨rfl, by decide⟩

/-! ## Metadata listing -/

/-- The stored collection after any operation sequence is the pure
append/filter fold of that sequence: records are kept in INSERTION order
(`storeFileMetadata` appends at the end, `deleteFileMetadata` keeps the
relative order of the survivors); `getAllFileMetadata` itself never
sorts. -/
theorem applyMetaOps_files (st : SecurityState) (ops : List MetaOp) :
    getAllFileMetadata (applyMetaOps st ops) =
      applyMetaOpsList (getAllFileMetadata st) ops := by
  induction ops generalizing st with
  | nil => rfl
  | cons op rest ih =>
    cases op with
    | store m => exact ih (storeFileMetadata st m)
    | del fid => exact ih (deleteFileMetadata st fid)

/-- C9 (amended): `getAllFileMetadata` returns the stored records in
INSERTION order (the append/filter fold of the operation history), not
sorted by creation time — see the counterexample.  The newest-first
ordering is produced one layer up: `loadFiles` in `_layout.tsx` sorts the
returned collection by descending `timestamp`, so ITS result is sorted
newest-first and is a permutation of the stored records. -/
theorem C9_listing_amended (st : SecurityState) (ops : List MetaOp) :
    getAllFileMetadata (applyMetaOps st ops) =
      applyMetaOpsList (getAllFileMetadata st) ops ∧
    (loadFiles (applyMetaOps st ops)).Pairwise
      (fun a b => b.timestamp ≤ a.timestamp) ∧
    List.Perm (loadFiles (applyMetaOps st ops))
      (getAllFileMetadata (applyMetaOps st ops)) := by
  refine ⟨applyMetaOps_files st ops, ?_, ?_⟩
  · haveI : IsTotal FileMetadata (fun a b => b.timestamp ≤ a.timestamp) :=
      ⟨fun a b => le_total b.timestamp a.timestamp⟩
    haveI : IsTrans FileMetadata (fun a b => b.timestamp ≤ a.timestamp) :=
      ⟨fun a b c hab hbc => le_trans hbc hab⟩
    exact List.sorted_insertionSort _ _
  · exact List.perm_insertionSort _ _

/-- Counterexample to C9 as stated: after storing `exRec1` (timestamp 1)
and then `exRec2` (timestamp 2), `getAllFileMetadata` returns the OLDER
record first — insertion order, not most-recently-created first.  The
descending order only appears after the UI-level sort in `loadFiles`. -/
theorem C9_counterexample :
    getAllFileMetadata
        (storeFileMetadata (storeFileMetadata exAuthSt exRec1) exRec2) =
      [exRec1, exRec2] ∧
    exRec1.timestamp < exRec2.timestamp ∧
    loadFiles (storeFileMetadata (storeFileMetadata exAuthSt exRec1) exRec2) =
      [exRec2, exRec1] := by
  refine ⟨rfl, by decide, ?_⟩
  rfl
